import Mathlib

/-!
Verification development for the crossroads repository: a shallow embedding
of the household model, the life-event catalog, and the before/after
comparison pipeline, together with proofs of the specification claims.

Monetary amounts (Python floats used only for exact-decimal arithmetic in
this code base) are modelled as rationals; Python ints as Lean integers.
Fallible Python code (indexing errors, the empty-household construction
error) is modelled with Option/Except.
-/

set_option autoImplicit false

namespace Crossroads

/-- Embedding of the Person dataclass of household.py: a person in a
household, with the same field names and defaults as the source. -/
structure Person where
  age : Int
  employment_income : Rat := 0
  self_employment_income : Rat := 0
  social_security_retirement : Rat := 0
  unemployment_compensation : Rat := 0
  is_pregnant : Bool := false
  is_tax_unit_head : Bool := false
  is_tax_unit_spouse : Bool := false
  has_esi : Bool := false
deriving DecidableEq, Repr

/-- The value a read of a missing list position falls back to in lemma
statements (Python would raise instead; total accessors only appear where
the index is known to be in range). -/
def defaultPerson : Person := { age := 0 }

/-- Mutation `m.is_tax_unit_head = True` of household.py, as a pure update. -/
def setHead (p : Person) : Person := { p with is_tax_unit_head := true }

/-- Mutation `m.is_tax_unit_spouse = True` of household.py, as a pure update. -/
def setSpouse (p : Person) : Person := { p with is_tax_unit_spouse := true }

/-- Apply `f` to the n-th member of the list whose age is at least 18
(0-based among adults), leaving everything else unchanged.  This is the
pure rendering of the in-place flag mutation on `adults[n]` in
Household._assign_tax_unit_roles, where `adults` is the sublist of members
aged 18 or more. -/
def setAtNthAdult (f : Person → Person) : Nat → List Person → List Person
  | _, [] => []
  | n, p :: rest =>
    if 18 ≤ p.age then
      match n with
      | 0 => f p :: rest
      | n + 1 => p :: setAtNthAdult f n rest
    else p :: setAtNthAdult f n rest

/-- Position (index into the member list) of the n-th adult, if any; used
to state claims about which member the role assignment targets. -/
def nthAdultIdx? : Nat → List Person → Option Nat
  | _, [] => none
  | n, p :: rest =>
    if 18 ≤ p.age then
      match n with
      | 0 => some 0
      | n + 1 => (nthAdultIdx? n rest).map (· + 1)
    else (nthAdultIdx? n rest).map (· + 1)

/-- Embedding of Household._assign_tax_unit_roles: if no member is marked
head and an adult exists, the first adult becomes head and — inside that
same branch — if there is a second adult and no member is marked spouse,
the second adult becomes spouse. -/
def assignTaxUnitRoles (ms : List Person) : List Person :=
  let adults := ms.filter fun m => 18 ≤ m.age
  if ¬ adults.isEmpty ∧ ¬ (ms.any fun m => m.is_tax_unit_head) then
    let ms1 := setAtNthAdult setHead 0 ms
    if 1 < adults.length ∧ ¬ (ms1.any fun m => m.is_tax_unit_spouse) then
      setAtNthAdult setSpouse 1 ms1
    else ms1
  else ms

/-- Embedding of the Household dataclass of household.py (state code,
ordered member list, tax year, optional county and ZIP code). -/
structure Household where
  state : String
  members : List Person
  year : Int := 2024
  county : Option String := none
  zip_code : Option String := none
deriving DecidableEq, Repr

/-- Household construction (the dataclass constructor followed by
__post_init__): an empty member list is a construction error, otherwise
tax-unit roles are assigned. -/
def Household.make (state : String) (members : List Person) (year : Int)
    (county : Option String) (zip_code : Option String) : Option Household :=
  if members.isEmpty then none
  else some { state := state, members := assignTaxUnitRoles members, year := year,
              county := county, zip_code := zip_code }

/-- Embedding of Household.copy: a deep copy is constructed through the
Household constructor, so __post_init__ (empty check and role assignment)
runs again on the copied members. -/
def Household.copy (h : Household) : Option Household :=
  Household.make h.state h.members h.year h.county h.zip_code

/-- Embedding of Household.add_member: append, then re-run role assignment. -/
def Household.add_member (h : Household) (p : Person) : Household :=
  { h with members := assignTaxUnitRoles (h.members ++ [p]) }

/-- Embedding of the Household.adults property (members aged 18 or more). -/
def Household.adults (h : Household) : List Person :=
  h.members.filter fun m => 18 ≤ m.age

/-! ### Python list primitives

Python list indexing accepts negative indices (counting from the end) and
raises IndexError when out of range; `list.pop(i)` removes in place. -/

/-- Resolve a Python list index (negative counts from the end) to a plain
position, or none when the access raises IndexError: the effective index
is i + n for negative i and i otherwise, and must lie in [0, n). -/
def pyIndex (n : Nat) (i : Int) : Option Nat :=
  if i < 0 then
    if 0 ≤ i + n ∧ i + n < n then some (i + n).toNat else none
  else
    if 0 ≤ i ∧ i < n then some i.toNat else none

/-- Replace the element at a plain position (identity when out of range). -/
def listModify {α : Type} (f : α → α) : Nat → List α → List α
  | _, [] => []
  | 0, a :: as => f a :: as
  | n + 1, a :: as => a :: listModify f n as

/-- Remove the element at a plain position (identity when out of range). -/
def listRemove {α : Type} : Nat → List α → List α
  | _, [] => []
  | 0, _ :: as => as
  | n + 1, a :: as => a :: listRemove n as

/-- Python `l[i]` as a value. -/
def pyGet {α : Type} (l : List α) (i : Int) : Option α :=
  (pyIndex l.length i).bind fun j => l.get? j

/-- Python `l[i].field = v` style in-place update of one element. -/
def pyModify {α : Type} (l : List α) (i : Int) (f : α → α) : Option (List α) :=
  (pyIndex l.length i).map fun j => listModify f j l

/-- Python `l.pop(i)`. -/
def pyPop {α : Type} (l : List α) (i : Int) : Option (List α) :=
  (pyIndex l.length i).map fun j => listRemove j l

/-- Pop a sequence of indices one after the other (the loop at the end of
Divorce.apply); any IndexError aborts. -/
def popAll {α : Type} : List α → List Int → Option (List α)
  | l, [] => some l
  | l, i :: rest =>
    match pyPop l i with
    | some l2 => popAll l2 rest
    | none => none

/-- Python truthiness of an optional list (`if self.children_leave_with_spouse:`):
None and the empty list are falsy. -/
def listTruthy {α : Type} (o : Option (List α)) : Bool :=
  match o with
  | none => false
  | some l => !l.isEmpty

/-- The descending duplicate-free removal order `sorted(set(x), reverse=True)`
used by Divorce.apply. -/
def sortDescDedup (l : List Int) : List Int :=
  List.insertionSort (fun a b => b ≤ a) l.dedup

/-- The member list with every position in `S` dropped (counting from `n`):
the specification-level description of what removing a set of indices from
a list means.  Used to state the Divorce claim. -/
def keepIdx (S : List Int) : Int → List Person → List Person
  | _, [] => []
  | n, a :: as => if n ∈ S then keepIdx S (n + 1) as else a :: keepIdx S (n + 1) as

/-- First index carrying the tax-unit spouse flag (the search loop at the
top of Divorce.apply). -/
def findSpouseIdx : List Person → Option Nat
  | [] => none
  | m :: rest =>
    if m.is_tax_unit_spouse then some 0 else (findSpouseIdx rest).map (· + 1)

/-! ### The life-event catalog -/

/-- Embedding of the AgingOutType enum of child_aging_out.py. -/
inductive AgingOutType where
  | dependent_18
  | dependent_19
  | health_insurance_26
deriving DecidableEq, Repr

/-- The numeric threshold of each aging-out variant. -/
def AgingOutType.value : AgingOutType → Int
  | .dependent_18 => 18
  | .dependent_19 => 19
  | .health_insurance_26 => 26

/-- Embedding of the ESILossType enum of losing_esi.py. -/
inductive ESILossType where
  | head
  | spouse
  | both
deriving DecidableEq, Repr

/-- The closed life-event catalog: one constructor per LifeEvent subclass,
carrying that dataclass's parameters.  The Retirement fields named
keep_part_employment and part_employment_income stand for the source
fields keep_parti*l_employment and parti*l_employment_income (spelled here
without the reserved word). -/
inductive Event where
  | newChild (age : Int)
  | marriage (spouse_age : Int) (spouse_employment_income : Rat)
      (spouse_self_employment_income : Rat) (spouse_children : List Person)
  | divorce (children_leave_with_spouse : Option (List Int))
  | jobChange (member_index : Int) (new_employment_income : Option Rat)
      (income_change : Option Rat)
  | unemployment (member_index : Int) (unemployment_compensation : Rat)
      (severance_pay : Option Rat)
  | retirement (member_index : Int) (social_security_amount : Rat)
      (keep_part_employment : Bool) (part_employment_income : Rat)
  | pregnancy (member_index : Int)
  | medicareTransition (member_index : Int)
  | childAgingOut (member_index : Int) (aging_out_type : AgingOutType)
  | move (new_state : String)
  | losingESI (who : ESILossType)
deriving DecidableEq, Repr

/-- The display name of each event (the `name` property of each subclass). -/
def Event.name : Event → String
  | .newChild _ => "New Child"
  | .marriage _ _ _ _ => "Marriage"
  | .divorce _ => "Divorce"
  | .jobChange _ _ _ => "Job Change"
  | .unemployment _ _ _ => "Unemployment"
  | .retirement _ _ _ _ => "Retirement"
  | .pregnancy _ => "Pregnancy"
  | .medicareTransition _ => "Medicare Transition"
  | .childAgingOut _ _ => "Child Aging Out"
  | .move _ => "Move"
  | .losingESI _ => "Losing Health Insurance"

/-- The recognized state codes of move.py. -/
def VALID_STATE_CODES : List String :=
  ["AL", "AK", "AZ", "AR", "CA", "CO", "CT", "DE", "FL", "GA",
   "HI", "ID", "IL", "IN", "IA", "KS", "KY", "LA", "ME", "MD",
   "MA", "MI", "MN", "MS", "MO", "MT", "NE", "NV", "NH", "NJ",
   "NM", "NY", "NC", "ND", "OH", "OK", "OR", "PA", "RI", "SC",
   "SD", "TN", "TX", "UT", "VT", "VA", "WA", "WV", "WI", "WY",
   "DC"]

/-- Embedding of each event's validate(household) method: the list of
error strings, in the order the source appends them. -/
def Event.validate (e : Event) (h : Household) : List String :=
  match e with
  | .newChild age =>
    (if h.adults.isEmpty then ["Household must have at least one adult to add a child"] else []) ++
    (if age < 0 then ["Child age cannot be negative"] else []) ++
    (if 18 ≤ age then ["New child must be under 18"] else [])
  | .marriage spouse_age spouse_employment_income _ _ =>
    (if h.members.any fun m => m.is_tax_unit_spouse then ["Household already has a spouse"] else []) ++
    (if spouse_age < 18 then ["Spouse must be 18 or older"] else []) ++
    (if spouse_employment_income < 0 then ["Spouse employment income cannot be negative"] else [])
  | .divorce children_leave_with_spouse =>
    (if h.members.any fun m => m.is_tax_unit_spouse then [] else ["Household has no spouse to divorce"]) ++
    (if listTruthy children_leave_with_spouse then
      (children_leave_with_spouse.getD []).flatMap fun idx =>
        if idx < 0 ∨ (h.members.length : Int) ≤ idx then
          ["Invalid child index: " ++ toString idx]
        else if (h.members.getD idx.toNat defaultPerson).is_tax_unit_head then
          ["Cannot remove the tax unit head"]
        else if (h.members.getD idx.toNat defaultPerson).is_tax_unit_spouse then
          ["Spouse is already being removed; do not include in children_leave_with_spouse"]
        else []
     else [])
  | .jobChange member_index new_employment_income income_change =>
    if member_index < 0 ∨ (h.members.length : Int) ≤ member_index then
      ["Invalid member index: " ++ toString member_index]
    else
      let member := h.members.getD member_index.toNat defaultPerson
      (if member.age < 16 then ["Member must be at least 16 to have employment income"] else []) ++
      (if new_employment_income = none ∧ income_change = none then
        ["Must specify either new_employment_income or income_change"] else []) ++
      (match new_employment_income with
       | some x => if x < 0 then ["New employment income cannot be negative"] else []
       | none => []) ++
      (match income_change with
       | some d => if member.employment_income + d < 0 then
           ["Resulting employment income cannot be negative"] else []
       | none => [])
  | .unemployment member_index unemployment_compensation _ =>
    if member_index < 0 ∨ (h.members.length : Int) ≤ member_index then
      ["Invalid member index: " ++ toString member_index]
    else
      let member := h.members.getD member_index.toNat defaultPerson
      (if member.employment_income = 0 then ["Member has no employment income to lose"] else []) ++
      (if unemployment_compensation < 0 then ["Unemployment compensation cannot be negative"] else [])
  | .retirement member_index social_security_amount keep_part pei =>
    if member_index < 0 ∨ (h.members.length : Int) ≤ member_index then
      ["Invalid member index: " ++ toString member_index]
    else
      let member := h.members.getD member_index.toNat defaultPerson
      (if member.age < 62 then
        ["Member must be at least 62 to claim Social Security retirement"] else []) ++
      (if social_security_amount < 0 then ["Social Security amount cannot be negative"] else []) ++
      (if keep_part ∧ pei < 0 then ["Partial employment income cannot be negative"] else [])
  | .pregnancy member_index =>
    if member_index < 0 ∨ (h.members.length : Int) ≤ member_index then
      ["Invalid member index: " ++ toString member_index]
    else
      let member := h.members.getD member_index.toNat defaultPerson
      if member.is_pregnant then ["Member is already pregnant"] else []
  | .medicareTransition member_index =>
    if member_index < 0 ∨ (h.members.length : Int) ≤ member_index then
      ["Invalid member index: " ++ toString member_index]
    else
      let member := h.members.getD member_index.toNat defaultPerson
      if 65 ≤ member.age then ["Member is already 65 or older"] else []
  | .childAgingOut member_index aging_out_type =>
    if member_index < 0 ∨ (h.members.length : Int) ≤ member_index then
      ["Invalid member index: " ++ toString member_index]
    else
      let member := h.members.getD member_index.toNat defaultPerson
      let threshold := aging_out_type.value
      (if threshold ≤ member.age then
        ["Member is already " ++ toString threshold ++ " or older"] else []) ++
      (if member.is_tax_unit_head ∨ member.is_tax_unit_spouse then
        ["Cannot apply child aging out to head or spouse"] else [])
  | .move new_state =>
    (if ¬ VALID_STATE_CODES.contains new_state then
      ["Invalid state code: " ++ new_state] else []) ++
    (if new_state = h.state then ["New state is the same as current state"] else [])
  | .losingESI who =>
    if who = ESILossType.spouse then
      if h.members.any fun m => m.is_tax_unit_spouse then []
      else ["Cannot lose spouse ESI without a spouse in the household"]
    else []

/-- Embedding of each event's apply(household) method.  Every apply starts
with household.copy(); in-place member mutation becomes pyModify; a Python
IndexError (or the empty-copy construction error) becomes none. -/
def Event.apply (e : Event) (h : Household) : Option Household :=
  match e with
  | .newChild age => do
    let nh ← h.copy
    pure (nh.add_member { age := age })
  | .marriage spouse_age sei ssei spouse_children => do
    let nh ← h.copy
    let spouse : Person :=
      { age := spouse_age, employment_income := sei, self_employment_income := ssei,
        is_tax_unit_spouse := true }
    let nh := nh.add_member spouse
    pure (spouse_children.foldl Household.add_member nh)
  | .divorce children_leave_with_spouse => do
    let nh ← h.copy
    let spouse_idx := findSpouseIdx nh.members
    let base : List Int :=
      match spouse_idx with
      | some i => [(i : Int)]
      | none => []
    let indices_to_remove :=
      base ++ (if listTruthy children_leave_with_spouse then
                 children_leave_with_spouse.getD [] else [])
    let ms ← popAll nh.members (sortDescDedup indices_to_remove)
    pure { nh with members := ms }
  | .jobChange member_index new_employment_income income_change => do
    let nh ← h.copy
    let ms ← pyModify nh.members member_index fun m =>
      match new_employment_income with
      | some x => { m with employment_income := x }
      | none =>
        match income_change with
        | some d => { m with employment_income := m.employment_income + d }
        | none => m
    pure { nh with members := ms }
  | .unemployment member_index unemployment_compensation _ => do
    let nh ← h.copy
    let ms ← pyModify nh.members member_index fun m =>
      { m with employment_income := 0,
               unemployment_compensation := unemployment_compensation }
    pure { nh with members := ms }
  | .retirement member_index social_security_amount keep_part pei => do
    let nh ← h.copy
    let ms ← pyModify nh.members member_index fun m =>
      { m with employment_income := if keep_part then pei else 0,
               social_security_retirement := social_security_amount }
    pure { nh with members := ms }
  | .pregnancy member_index => do
    let nh ← h.copy
    let ms ← pyModify nh.members member_index fun m => { m with is_pregnant := true }
    pure { nh with members := ms }
  | .medicareTransition member_index => do
    let nh ← h.copy
    let ms ← pyModify nh.members member_index fun m => { m with age := 65 }
    pure { nh with members := ms }
  | .childAgingOut member_index aging_out_type => do
    let nh ← h.copy
    let ms ← pyModify nh.members member_index fun m => { m with age := aging_out_type.value }
    pure { nh with members := ms }
  | .move new_state => do
    let nh ← h.copy
    pure { nh with state := new_state }
  | .losingESI _ => h.copy

/-! ### Serialization into the external engine's situation format -/

/-- A value stored in a year-keyed attribute map of the situation record. -/
inductive SitVal where
  | num (x : Rat)
  | str (s : String)
  | bool (b : Bool)
deriving DecidableEq, Repr

/-- One serialized person: attribute name to (year, value), in insertion
order, mirroring the Python dict `{"age": {year: ...}, ...}`. -/
abbrev PersonEntry : Type := List (String × Int × SitVal)

/-- Lookup of an attribute in a serialized person entry (first match). -/
def entryLookup (k : String) : PersonEntry → Option (Int × SitVal)
  | [] => none
  | e :: rest => if e.1 = k then some e.2 else entryLookup k rest

/-- Embedding of Person.to_situation_dict: the five monetary/demographic
attributes are always written; is_pregnant and is_enrolled_in_esi are
written (as true) only when the corresponding flag is set. -/
def Person.to_situation_dict (p : Person) (year : Int) : PersonEntry :=
  [("age", (year, SitVal.num p.age)),
   ("employment_income", (year, SitVal.num p.employment_income)),
   ("self_employment_income", (year, SitVal.num p.self_employment_income)),
   ("social_security_retirement", (year, SitVal.num p.social_security_retirement)),
   ("unemployment_compensation", (year, SitVal.num p.unemployment_compensation))] ++
  (if p.is_pregnant then [("is_pregnant", (year, SitVal.bool true))] else []) ++
  (if p.has_esi then [("is_enrolled_in_esi", (year, SitVal.bool true))] else [])

/-- The nested record Household.to_situation produces, with the groupings
of the source flattened into one structure (people entries keyed by the
synthetic person identifiers; the four membership lists; the
household-level state/county/zip attributes). -/
structure Situation where
  people : List (String × PersonEntry)
  tax_unit_members : List String
  family_members : List String
  spm_unit_members : List String
  household_members : List String
  state_code : Int × String
  county : Option (Int × String) := none
  zip_code : Option (Int × String) := none
deriving DecidableEq, Repr

/-- Append one boolean attribute to the entry of the named person
(`people[pid][key] = {year: True}` in the source). -/
def addBoolKey (people : List (String × PersonEntry)) (pid key : String)
    (year : Int) : List (String × PersonEntry) :=
  people.map fun e =>
    if e.1 = pid then (e.1, e.2 ++ [(key, (year, SitVal.bool true))]) else e

/-- The head/spouse/dependent scan of Household.to_situation: the loop
keeps the last member flagged head, the last member flagged spouse (and
not head), and collects everyone else as a dependent. -/
def rolesScan (ms : List Person) : Option String × Option String × List String :=
  (ms.enum.foldl
    (fun (acc : Option String × Option String × List String) im =>
      let pid := "person_" ++ toString im.1
      if im.2.is_tax_unit_head then (some pid, acc.2.1, acc.2.2)
      else if im.2.is_tax_unit_spouse then (acc.1, some pid, acc.2.2)
      else (acc.1, acc.2.1, acc.2.2 ++ [pid]))
    (none, none, []))

/-- Embedding of Household.to_situation. -/
def Household.to_situation (h : Household) : Situation :=
  let ids := (List.range h.members.length).map fun i => "person_" ++ toString i
  let people0 := h.members.enum.map fun im =>
    ("person_" ++ toString im.1, im.2.to_situation_dict h.year)
  let scan := rolesScan h.members
  let people1 :=
    match scan.1 with
    | some hid => addBoolKey people0 hid "is_tax_unit_head" h.year
    | none => people0
  let people2 :=
    match scan.2.1 with
    | some sid => addBoolKey people1 sid "is_tax_unit_spouse" h.year
    | none => people1
  let people3 := scan.2.2.foldl
    (fun acc dep => addBoolKey acc dep "is_tax_unit_dependent" h.year) people2
  { people := people3,
    tax_unit_members := ids,
    family_members := ids,
    spm_unit_members := ids,
    household_members := ids,
    state_code := (h.year, h.state),
    county := h.county.map fun c => (h.year, c),
    zip_code := h.zip_code.map fun z => (h.year, z) }

/-! ### The external simulation engine boundary -/

/-- A value the external engine returns for one variable: a scalar or a
per-entity array. -/
inductive EngineValue where
  | scalar (x : Rat)
  | array (xs : List Rat)
deriving DecidableEq, Repr

/-- An engine behavior: for a situation, a year and a variable name, either
a value or none (the call raised).  compare is verified for every such
function. -/
def Engine : Type := Situation → Int → String → Option EngineValue

/-- The fixed tracked-variable list OUTPUT_VARIABLES of compare.py. -/
def OUTPUT_VARIABLES : List String :=
  ["household_net_income",
   "employment_income", "self_employment_income",
   "income_tax", "employee_payroll_tax", "self_employment_tax",
   "state_income_tax",
   "snap", "free_school_meals", "reduced_price_school_meals",
   "school_meal_subsidy", "wic",
   "tanf", "ssi", "social_security",
   "spm_unit_capped_housing_subsidy",
   "medicaid", "chip",
   "liheap", "lifeline", "acp",
   "ccdf",
   "earned_income_tax_credit", "ctc", "non_refundable_ctc", "refundable_ctc",
   "cdcc", "premium_tax_credit",
   "savers_credit", "american_opportunity_credit", "lifetime_learning_credit",
   "state_eitc", "state_ctc",
   "ca_eitc", "ca_yctc", "ca_renter_credit", "ca_tanf", "ca_state_supplement",
   "ny_eitc", "ny_ctc", "ny_tanf",
   "co_eitc", "co_ctc", "co_tanf", "co_state_supplement", "co_ccap_subsidy",
   "co_family_affordability_credit",
   "md_eitc", "md_ctc",
   "nj_eitc", "nj_ctc",
   "il_eitc", "il_ctc",
   "dc_eitc", "dc_ctc", "dc_tanf", "dc_snap_temporary_local_benefit",
   "or_eitc", "or_ctc",
   "nm_eitc", "nm_ctc",
   "ma_eitc", "ma_child_and_family_credit",
   "wa_working_families_tax_credit",
   "ct_child_tax_rebate", "ct_property_tax_credit",
   "mn_child_and_working_families_credits",
   "vt_eitc", "vt_ctc", "me_eitc", "ri_eitc", "oh_eitc", "ne_eitc",
   "sc_eitc", "ok_eitc", "hi_eitc", "ut_eitc", "ut_ctc"]

/-- First-match association lookup (Python dict.get). -/
def assocLookup {β : Type} (k : String) : List (String × β) → Option β
  | [] => none
  | e :: rest => if e.1 = k then some e.2 else assocLookup k rest

/-- The loop body of _run_simulation for one variable: arrays are reduced
by summation, scalars pass through, and a raising invocation is recorded
as 0.0. -/
def calcVar (engine : Engine) (situation : Situation) (year : Int) (v : String) : Rat :=
  match engine situation year v with
  | some (EngineValue.array xs) => xs.sum
  | some (EngineValue.scalar x) => x
  | none => 0

/-- Embedding of _run_simulation: one engine invocation per tracked
variable, absorbing per-variable failures. -/
def runSimulation (engine : Engine) (situation : Situation) (year : Int) :
    List (String × Rat) :=
  OUTPUT_VARIABLES.map fun v => (v, calcVar engine situation year v)

/-! ### Coverage inference -/

/-- Embedding of the PersonHealthcare dataclass of compare.py. -/
structure PersonHealthcare where
  person_index : Nat
  label : String
  medicaid : Bool := false
  chip : Bool := false
  marketplace : Bool := false
  esi : Bool := false
deriving DecidableEq, Repr

/-- Embedding of the HealthcareCoverage dataclass of compare.py. -/
structure HealthcareCoverage where
  people : List PersonHealthcare
  has_ptc : Bool := false
deriving DecidableEq, Repr

/-- The child-numbering loop of _get_person_label: walk the members,
counting non-head/non-spouse members, and report the count when the
target index is reached inside that branch. -/
def childNumGo (index : Nat) : Nat → Nat → List Person → Option Nat
  | _, _, [] => none
  | i, cnt, m :: rest =>
    if ¬ m.is_tax_unit_head ∧ ¬ m.is_tax_unit_spouse then
      if i = index then some (cnt + 1) else childNumGo index (i + 1) (cnt + 1) rest
    else childNumGo index (i + 1) cnt rest

/-- Embedding of _get_person_label. -/
def getPersonLabel (index : Nat) (h : Household) : String :=
  if h.members.length ≤ index then "Person " ++ toString (index + 1)
  else
    let member := h.members.getD index defaultPerson
    if member.is_tax_unit_head then "You"
    else if member.is_tax_unit_spouse then "Spouse"
    else
      match childNumGo index 0 0 h.members with
      | some k => "Child " ++ toString k
      | none => "Person " ++ toString (index + 1)

/-- Embedding of _extract_healthcare_coverage.  The per-person medicaid and
chip lookups substitute a zero array when the engine call raises; but a
bare scalar returned for either variable makes the len()/indexing code
outside the try block raise, which is modelled as none. -/
def extractHealthcare (engine : Engine) (situation : Situation) (h : Household)
    (year : Int) : Option HealthcareCoverage :=
  let num_people := h.members.length
  let medicaid_values : Option (List Rat) :=
    match engine situation year "medicaid" with
    | some (EngineValue.array xs) => some xs
    | some (EngineValue.scalar _) => none
    | none => some (List.replicate num_people 0)
  let chip_values : Option (List Rat) :=
    match engine situation year "chip" with
    | some (EngineValue.array xs) => some xs
    | some (EngineValue.scalar _) => none
    | none => some (List.replicate num_people 0)
  let ptc_value : Rat :=
    match engine situation year "premium_tax_credit" with
    | some (EngineValue.array xs) => xs.sum
    | _ => 0
  let has_ptc := decide (0 < ptc_value)
  match medicaid_values, chip_values with
  | some mvs, some cvs =>
    some
      { people := (List.range num_people).map fun i =>
          let member := h.members.getD i defaultPerson
          let medicaid_amount := if i < mvs.length then mvs.getD i 0 else 0
          let chip_amount := if i < cvs.length then cvs.getD i 0 else 0
          let has_esi := member.has_esi
          let on_medicaid := decide (0 < medicaid_amount) && !has_esi
          let on_chip := decide (0 < chip_amount) && !has_esi
          let on_marketplace := has_ptc && !has_esi && !on_medicaid && !on_chip
          { person_index := i,
            label := getPersonLabel i h,
            esi := has_esi,
            medicaid := on_medicaid,
            chip := on_chip,
            marketplace := on_marketplace },
        has_ptc := has_ptc }
  | _, _ => none

/-! ### The comparator -/

/-- Embedding of the BenefitChange dataclass. -/
structure BenefitChange where
  name : String
  before : Rat
  after : Rat
deriving DecidableEq, Repr

/-- Embedding of the ComparisonResult dataclass. -/
structure ComparisonResult where
  event : Event
  before_situation : Situation
  after_situation : Situation
  changes : List (String × BenefitChange)
  healthcare_before : Option HealthcareCoverage := none
  healthcare_after : Option HealthcareCoverage := none
deriving DecidableEq, Repr

/-- The failure kinds compare can raise: the ValueError carrying the joined
validation messages, or an uncaught exception escaping from deeper code. -/
inductive CompareError where
  | validationError (msg : String)
  | exn
deriving DecidableEq, Repr

/-- Embedding of compare(household, event, variables): validate (failing
with a joined-message error before any engine work), serialize both
snapshots, run the engine per variable on both, extract coverage, and
assemble the changes map over the tracked (or caller-overridden) variable
list. -/
def compare (engine : Engine) (household : Household) (event : Event)
    (variablesOpt : Option (List String)) : Except CompareError ComparisonResult :=
  let errors := event.validate household
  if errors = ([] : List String) then
    let before_situation := household.to_situation
    match event.apply household with
    | none => Except.error CompareError.exn
    | some after_household =>
      let after_situation := after_household.to_situation
      let before_results := runSimulation engine before_situation household.year
      let after_results := runSimulation engine after_situation after_household.year
      match extractHealthcare engine before_situation household household.year with
      | none => Except.error CompareError.exn
      | some healthcare_before =>
        match extractHealthcare engine after_situation after_household after_household.year with
        | none => Except.error CompareError.exn
        | some healthcare_after =>
          let vars_to_compare :=
            match variablesOpt with
            | some l => if l.isEmpty then OUTPUT_VARIABLES else l
            | none => OUTPUT_VARIABLES
          let changes := vars_to_compare.map fun v =>
            (v, { name := v,
                  before := (assocLookup v before_results).getD 0,
                  after := (assocLookup v after_results).getD 0 : BenefitChange })
          Except.ok
            { event := event,
              before_situation := before_situation,
              after_situation := after_situation,
              changes := changes,
              healthcare_before := some healthcare_before,
              healthcare_after := some healthcare_after }
  else
    Except.error (CompareError.validationError
      ("Cannot apply " ++ event.name ++ ": " ++ String.intercalate "; " errors))

/-! ### Concrete households used to instantiate theorems -/

/-- A single working adult marked as head (the shape the request parser
produces for a single filer). -/
def hOneWorker : Household :=
  { state := "CA",
    members := [{ age := 30, employment_income := 100, is_tax_unit_head := true }],
    year := 2024 }

/-- A single adult head with no income fields set. -/
def hHeadOnly : Household :=
  { state := "CA", members := [{ age := 30, is_tax_unit_head := true }], year := 2024 }

/-! ### Claim C10 — severance_pay is dead -/

/-! ### Definitions used by the claim theorems (concrete instances, auxiliary predicates and the store-level model) -/

/-- The corrected role-assignment contract relating a member list before
and after role assignment: a marked head freezes everything (no spouse is
auto-assigned either); with no marked head, the first adult becomes head
and — when a second adult exists and no spouse is marked — the second
adult becomes spouse. -/
def Roles (input output : List Person) : Prop :=
  ((input.any fun m => m.is_tax_unit_head) = true → output = input) ∧
  ((input.any fun m => m.is_tax_unit_head) = false →
    (∀ i, nthAdultIdx? 0 input = some i →
      (output.getD i defaultPerson).is_tax_unit_head = true) ∧
    ((input.any fun m => m.is_tax_unit_spouse) = false →
      ∀ j, nthAdultIdx? 1 input = some j →
        (output.getD j defaultPerson).is_tax_unit_spouse = true))

/-- A member explicitly marked head, next to an unmarked second adult. -/
def pHeadMarked : Person := { age := 30, is_tax_unit_head := true }

/-- An unmarked second adult. -/
def pSecondAdult : Person := { age := 28 }

/-- The two unmarked adults used to witness claim C5. -/
def w5in : List Person := [{ age := 25 }, { age := 23 }]

/-- The household the constructor builds from the two unmarked adults. -/
def w5out : Household := { state := "CA", members := assignTaxUnitRoles w5in, year := 2024 }

/-- The person Marriage.apply appends for the spouse, after role
assignment has also marked it head. -/
def spouseBoth (a : Int) (ei ssei : Rat) : Person :=
  { age := a, employment_income := ei, self_employment_income := ssei,
    is_tax_unit_head := true, is_tax_unit_spouse := true }

/-- The all-minor household used to witness claim C9. -/
def h9w : Household := { state := "CA", members := [{ age := 10 }], year := 2024 }

/-- The household Marriage.apply produces on the witness household. -/
def h9res : Household :=
  { state := "CA", members := [{ age := 10 }, spouseBoth 30 0 0], year := 2024 }

/-- The household already satisfies the role-assignment invariant:
re-running role assignment changes nothing.  This holds for every
household built by the constructor, add_member or an event apply. -/
abbrev RoleStable (h : Household) : Prop := assignTaxUnitRoles h.members = h.members

/-- The effective list of child indices a Divorce removes (None and the
empty list are Python-falsy, contributing nothing). -/
def childList (cls : Option (List Int)) : List Int :=
  if listTruthy cls then cls.getD [] else []

/-- The married household with one child used to instantiate claim C7. -/
def h7w : Household :=
  { state := "CA",
    members := [{ age := 35, is_tax_unit_head := true },
                { age := 33, is_tax_unit_spouse := true },
                { age := 5 }],
    year := 2024 }

/-- What the Divorce (child index 2 leaving) produces on that household. -/
def h7res : Household :=
  { state := "CA",
    members := keepIdx ((1 : Int) :: childList (some [2])) 0 h7w.members,
    year := 2024 }

/-- An engine that answers every per-variable call with a bare scalar. -/
def scalarEngine : Engine := fun _ _ _ => some (EngineValue.scalar 1)

/-- An engine on which every per-variable call raises. -/
def noneEngine : Engine := fun _ _ _ => none

/-- The engine never returns a bare scalar for the per-person healthcare
variables medicaid and chip (an array or a raising call are both fine).
This is the boundary the coverage-extraction code needs: its len()-based
indexing of those two results lives outside the try block. -/
def healthArraysOk (engine : Engine) : Prop :=
  ∀ (s : Situation) (y : Int),
    (∀ x, engine s y "medicaid" ≠ some (EngineValue.scalar x)) ∧
    (∀ x, engine s y "chip" ≠ some (EngineValue.scalar x))

/-- An object address in the store. -/
abbrev Addr : Type := Nat

/-- The heap of Person objects; the address is the position, and
allocation appends. -/
abbrev Store : Type := List Person

/-- Dereference an address. -/
def readS (s : Store) (a : Addr) : Person := s.getD a defaultPerson

/-- Overwrite the object at an address (no-op on a dangling address). -/
def writeS (s : Store) (a : Addr) (p : Person) : Store := listModify (fun _ => p) a s

/-- Allocate a fresh object, returning its address. -/
def allocS (s : Store) (p : Person) : Store × Addr := (s ++ [p], s.length)

/-- A household as the heap sees it: the same scalar fields, with the
member sequence holding object addresses. -/
structure HouseholdH where
  state : String
  members : List Addr
  year : Int := 2024
  county : Option String := none
  zip_code : Option String := none
deriving DecidableEq, Repr

/-- Store-level _assign_tax_unit_roles: the same logic as
assignTaxUnitRoles, with the in-place mutations of adults[0]/adults[1]
rendered as store writes at those member addresses. -/
def assignRolesH (s : Store) (addrs : List Addr) : Store :=
  let adults := addrs.filter fun a => 18 ≤ (readS s a).age
  if ¬ adults.isEmpty ∧ ¬ (addrs.any fun a => (readS s a).is_tax_unit_head) then
    let s1 := writeS s (adults.getD 0 0) (setHead (readS s (adults.getD 0 0)))
    if 1 < adults.length ∧ ¬ (addrs.any fun a => (readS s1 a).is_tax_unit_spouse) then
      writeS s1 (adults.getD 1 0) (setSpouse (readS s1 (adults.getD 1 0)))
    else s1
  else s

/-- One deep-copy step: allocate a fresh object holding the value read at
the source address. -/
def copyAllocAux (acc : Store × List Addr) (a : Addr) : Store × List Addr :=
  (acc.1 ++ [readS acc.1 a], acc.2 ++ [acc.1.length])

/-- Store-level Household.copy: deep-copy every member into fresh
addresses, then run the constructor (empty check and role assignment on
the copies). -/
def copyH (s : Store) (h : HouseholdH) : Store × Option HouseholdH :=
  let fold := h.members.foldl copyAllocAux (s, [])
  if fold.2.isEmpty then (fold.1, none)
  else (assignRolesH fold.1 fold.2, some { h with members := fold.2 })

/-- Store-level Household.add_member. -/
def add_memberH (s : Store) (h : HouseholdH) (a : Addr) : Store × HouseholdH :=
  (assignRolesH s (h.members ++ [a]), { h with members := h.members ++ [a] })

/-- Store-level spouse search of Divorce.apply. -/
def findSpouseIdxH (s : Store) : List Addr → Option Nat
  | [] => none
  | a :: rest =>
    if (readS s a).is_tax_unit_spouse then some 0
    else (findSpouseIdxH s rest).map (· + 1)

/-- The life-event catalog at store level: identical parameters, except
that Marriage's spouse_children are heap objects, i.e. addresses. -/
inductive EventH where
  | newChild (age : Int)
  | marriage (spouse_age : Int) (spouse_employment_income : Rat)
      (spouse_self_employment_income : Rat) (spouse_children : List Addr)
  | divorce (children_leave_with_spouse : Option (List Int))
  | jobChange (member_index : Int) (new_employment_income : Option Rat)
      (income_change : Option Rat)
  | unemployment (member_index : Int) (unemployment_compensation : Rat)
      (severance_pay : Option Rat)
  | retirement (member_index : Int) (social_security_amount : Rat)
      (keep_part_employment : Bool) (part_employment_income : Rat)
  | pregnancy (member_index : Int)
  | medicareTransition (member_index : Int)
  | childAgingOut (member_index : Int) (aging_out_type : AgingOutType)
  | move (new_state : String)
  | losingESI (who : ESILossType)
deriving DecidableEq, Repr

/-- The addresses an event itself carries into apply (only Marriage's
spouse_children are heap objects). -/
def eventChildAddrs : EventH → List Addr
  | .marriage _ _ _ cs => cs
  | _ => []

/-- Store-level in-place update of the member at a Python index: read the
object address, then write the updated value back at that same address. -/
def modifyMemberH (s : Store) (h : HouseholdH) (i : Int) (f : Person → Person) :
    Store × Option HouseholdH :=
  match pyGet h.members i with
  | none => (s, none)
  | some ma => (writeS s ma (f (readS s ma)), some h)

/-- Store-level embedding of each event's apply method, mirroring
Event.apply with explicit object identity. -/
def applyH (e : EventH) (s : Store) (h : HouseholdH) : Store × Option HouseholdH :=
  match e with
  | .newChild age =>
    match copyH s h with
    | (s1, none) => (s1, none)
    | (s1, some nh) =>
      let al := allocS s1 { age := age }
      let st := add_memberH al.1 nh al.2
      (st.1, some st.2)
  | .marriage spouse_age sei ssei spouse_children =>
    match copyH s h with
    | (s1, none) => (s1, none)
    | (s1, some nh) =>
      let al := allocS s1
        { age := spouse_age, employment_income := sei, self_employment_income := ssei,
          is_tax_unit_spouse := true }
      let st := add_memberH al.1 nh al.2
      let fin := spouse_children.foldl (fun acc c => add_memberH acc.1 acc.2 c) st
      (fin.1, some fin.2)
  | .divorce children_leave_with_spouse =>
    match copyH s h with
    | (s1, none) => (s1, none)
    | (s1, some nh) =>
      let spouse_idx := findSpouseIdxH s1 nh.members
      let base : List Int :=
        match spouse_idx with
        | some i => [(i : Int)]
        | none => []
      let indices_to_remove :=
        base ++ (if listTruthy children_leave_with_spouse then
                   children_leave_with_spouse.getD [] else [])
      match popAll nh.members (sortDescDedup indices_to_remove) with
      | some ms => (s1, some { nh with members := ms })
      | none => (s1, none)
  | .jobChange member_index new_employment_income income_change =>
    match copyH s h with
    | (s1, none) => (s1, none)
    | (s1, some nh) =>
      modifyMemberH s1 nh member_index fun m =>
        match new_employment_income with
        | some x => { m with employment_income := x }
        | none =>
          match income_change with
          | some d => { m with employment_income := m.employment_income + d }
          | none => m
  | .unemployment member_index unemployment_compensation _ =>
    match copyH s h with
    | (s1, none) => (s1, none)
    | (s1, some nh) =>
      modifyMemberH s1 nh member_index fun m =>
        { m with employment_income := 0,
                 unemployment_compensation := unemployment_compensation }
  | .retirement member_index social_security_amount keep_part pei =>
    match copyH s h with
    | (s1, none) => (s1, none)
    | (s1, some nh) =>
      modifyMemberH s1 nh member_index fun m =>
        { m with employment_income := if keep_part then pei else 0,
                 social_security_retirement := social_security_amount }
  | .pregnancy member_index =>
    match copyH s h with
    | (s1, none) => (s1, none)
    | (s1, some nh) =>
      modifyMemberH s1 nh member_index fun m => { m with is_pregnant := true }
  | .medicareTransition member_index =>
    match copyH s h with
    | (s1, none) => (s1, none)
    | (s1, some nh) =>
      modifyMemberH s1 nh member_index fun m => { m with age := 65 }
  | .childAgingOut member_index aging_out_type =>
    match copyH s h with
    | (s1, none) => (s1, none)
    | (s1, some nh) =>
      modifyMemberH s1 nh member_index fun m => { m with age := aging_out_type.value }
  | .move new_state =>
    match copyH s h with
    | (s1, none) => (s1, none)
    | (s1, some nh) => (s1, some { nh with state := new_state })
  | .losingESI _ =>
    match copyH s h with
    | (s1, oh) => (s1, oh)

/-- The single-adult store and household used to witness claim C6. -/
def s6w : Store := [{ age := 30, is_tax_unit_head := true }]

/-- The well-formed input household over that store. -/
def h6w : HouseholdH := { state := "CA", members := [0], year := 2024 }

/-- Claim C10: the severance_pay parameter of Unemployment has no effect:
two Unemployment events differing only in severance_pay validate
identically and apply identically on every household. -/
theorem claim10_severance_pay_unused (h : Household) (idx : Int) (uc : Rat)
    (sev1 sev2 : Option Rat) :
    Event.validate (.unemployment idx uc sev1) h = Event.validate (.unemployment idx uc sev2) h ∧
    Event.apply (.unemployment idx uc sev1) h = Event.apply (.unemployment idx uc sev2) h :=
  ⟨rfl, rfl⟩

/-! ### Claim C8 — person serialization -/

/-- Claim C8: the serialized person entry always carries the five
year-keyed numeric attributes; is_pregnant and is_enrolled_in_esi are
present (mapped to true) exactly when the corresponding flag is set; a
false boolean is never written. -/
theorem claim8_to_situation_dict (p : Person) (year : Int) :
    entryLookup "age" (p.to_situation_dict year) = some (year, SitVal.num (p.age : Rat)) ∧
    entryLookup "employment_income" (p.to_situation_dict year) =
      some (year, SitVal.num p.employment_income) ∧
    entryLookup "self_employment_income" (p.to_situation_dict year) =
      some (year, SitVal.num p.self_employment_income) ∧
    entryLookup "social_security_retirement" (p.to_situation_dict year) =
      some (year, SitVal.num p.social_security_retirement) ∧
    entryLookup "unemployment_compensation" (p.to_situation_dict year) =
      some (year, SitVal.num p.unemployment_compensation) ∧
    (entryLookup "is_pregnant" (p.to_situation_dict year) =
      if p.is_pregnant then some (year, SitVal.bool true) else none) ∧
    (entryLookup "is_enrolled_in_esi" (p.to_situation_dict year) =
      if p.has_esi then some (year, SitVal.bool true) else none) ∧
    (∀ e ∈ p.to_situation_dict year, e.2.2 ≠ SitVal.bool false) := by
  cases hp : p.is_pregnant <;> cases he : p.has_esi <;>
    simp [Person.to_situation_dict, entryLookup, hp, he]

/-! ### Claim C3 — JobChange validation -/

/-- A conditional singleton error list is empty exactly when the condition
fails. -/
theorem ite_singleton_eq_nil {α : Type} {c : Prop} [Decidable c] (a : α) :
    ((if c then [a] else []) = []) ↔ ¬ c := by
  split <;> simp [*]

/-- Counterexample to claim C3: a JobChange providing BOTH
new_employment_income and income_change on an otherwise valid member
passes validation (the source only rejects the case where neither is
provided), while the claim demands a non-empty error list unless exactly
one is provided. -/
theorem claim3_counterexample :
    Event.validate (.jobChange 0 (some 50) (some 10)) hOneWorker = [] := by
  norm_num [Event.validate, hOneWorker, defaultPerson]
  exact fun hx => Option.noConfusion hx

/-- Claim C3 (amended): JobChange validation succeeds exactly when the
member index is in range, the member is at least 16, AT LEAST ONE of
new_employment_income / income_change is provided, a provided new income
is non-negative and a provided delta keeps the income non-negative; in
particular providing both parameters is accepted. -/
theorem claim3_jobchange_validate_iff (h : Household) (idx : Int)
    (newInc chg : Option Rat) :
    Event.validate (.jobChange idx newInc chg) h = [] ↔
      (0 ≤ idx ∧ idx < (h.members.length : Int) ∧
       16 ≤ (h.members.getD idx.toNat defaultPerson).age ∧
       (newInc ≠ none ∨ chg ≠ none) ∧
       (∀ x, newInc = some x → 0 ≤ x) ∧
       (∀ d, chg = some d →
         0 ≤ (h.members.getD idx.toNat defaultPerson).employment_income + d)) := by
  simp only [Event.validate]
  split
  · rename_i hbad
    constructor
    · intro hcontra
      exact absurd hcontra (by simp)
    · rintro ⟨h1, h2, -⟩
      omega
  · rename_i hok
    push_neg at hok
    obtain ⟨h1, h2⟩ := hok
    cases newInc <;> cases chg <;>
      simp [List.append_eq_nil, ite_singleton_eq_nil, not_lt, h1, h2]

/-- Witness for claim C3 (amended): a concrete JobChange with both
parameters provided and a valid member passes validation. -/
theorem claim3_witness :
    Event.validate (.jobChange 0 (some 50) (some 10)) hOneWorker = [] :=
  (claim3_jobchange_validate_iff hOneWorker 0 (some 50) (some 10)).mpr
    ⟨by norm_num, by norm_num [hOneWorker], by norm_num [hOneWorker, defaultPerson],
     Or.inl (by simp),
     fun x hx => by cases hx; norm_num,
     fun d hd => by cases hd; norm_num [hOneWorker, defaultPerson]⟩

/-! ### Claim C4 — LosingESI validation -/

/-- Counterexample to claim C4: LosingESI with who=both on a spouseless
household passes validation — the source checks for a spouse only when
who=spouse, while the claim demands a failure for who=both as well. -/
theorem claim4_counterexample :
    Event.validate (.losingESI ESILossType.both) hHeadOnly = [] := by
  simp [Event.validate, hHeadOnly]

/-- Claim C4 (amended): LosingESI validation requires a spouse only in the
who=spouse case; who=head and who=both always validate, even on a
spouseless household, and who=spouse on a spouseless household yields the
missing-spouse error. -/
theorem claim4_losing_esi_validate :
    (∀ h : Household, Event.validate (.losingESI ESILossType.both) h = []) ∧
    (∀ h : Household, Event.validate (.losingESI ESILossType.head) h = []) ∧
    (∀ h : Household, (h.members.any fun m => m.is_tax_unit_spouse) = false →
      Event.validate (.losingESI ESILossType.spouse) h =
        ["Cannot lose spouse ESI without a spouse in the household"]) := by
  refine ⟨fun h => by simp [Event.validate], fun h => by simp [Event.validate],
    fun h hs => ?_⟩
  simp [Event.validate, hs]

/-- Witness for claim C4 (amended): instantiated on the concrete
spouseless household. -/
theorem claim4_witness :
    Event.validate (.losingESI ESILossType.spouse) hHeadOnly =
      ["Cannot lose spouse ESI without a spouse in the household"] :=
  claim4_losing_esi_validate.2.2 hHeadOnly (by decide)

/-! ### Role-assignment lemmas (claims C5 and C9) -/

/-- Mapping a successor over an optional index keeps definedness. -/
theorem isSome_map_succ (o : Option Nat) : (o.map (· + 1)).isSome = o.isSome := by
  cases o <;> rfl

/-- The n-th adult position exists exactly when there are more than n
adults. -/
theorem nthAdultIdx?_isSome_iff (ms : List Person) (n : Nat) :
    (nthAdultIdx? n ms).isSome = true ↔ n < (ms.filter fun m => 18 ≤ m.age).length := by
  induction ms generalizing n with
  | nil => simp [nthAdultIdx?]
  | cons p rest ih =>
    by_cases hp : 18 ≤ p.age
    · cases n with
      | zero => simp [nthAdultIdx?, hp, List.filter_cons]
      | succ n =>
        simp only [nthAdultIdx?, if_pos hp, isSome_map_succ]
        rw [ih]
        simp [List.filter_cons, hp]
    · simp only [nthAdultIdx?, if_neg hp, isSome_map_succ]
      rw [ih]
      simp [List.filter_cons, hp]

/-- The n-th adult position is a valid index. -/
theorem nthAdultIdx?_lt_length {ms : List Person} {n i : Nat}
    (h : nthAdultIdx? n ms = some i) : i < ms.length := by
  induction ms generalizing n i with
  | nil => simp [nthAdultIdx?] at h
  | cons p rest ih =>
    by_cases hp : 18 ≤ p.age
    · cases n with
      | zero =>
        simp only [nthAdultIdx?, if_pos hp] at h
        cases h
        simp
      | succ n =>
        simp only [nthAdultIdx?, if_pos hp, Option.map_eq_some'] at h
        obtain ⟨i2, h2, rfl⟩ := h
        have := ih h2
        simp only [List.length_cons]
        omega
    · simp only [nthAdultIdx?, if_neg hp, Option.map_eq_some'] at h
      obtain ⟨i2, h2, rfl⟩ := h
      have := ih h2
      simp only [List.length_cons]
      omega

/-- setAtNthAdult keeps the list length. -/
theorem setAtNthAdult_length (f : Person → Person) (n : Nat) (ms : List Person) :
    (setAtNthAdult f n ms).length = ms.length := by
  induction ms generalizing n with
  | nil => rfl
  | cons p rest ih =>
    by_cases hp : 18 ≤ p.age
    · cases n with
      | zero => simp [setAtNthAdult, hp]
      | succ n => simp [setAtNthAdult, hp, ih]
    · simp [setAtNthAdult, hp, ih]

/-- setAtNthAdult rewrites exactly the targeted adult position. -/
theorem setAtNthAdult_get_eq {f : Person → Person} {n i : Nat} {ms : List Person}
    (h : nthAdultIdx? n ms = some i) :
    (setAtNthAdult f n ms)[i]? = (ms[i]?).map f := by
  induction ms generalizing n i with
  | nil => simp [nthAdultIdx?] at h
  | cons p rest ih =>
    by_cases hp : 18 ≤ p.age
    · cases n with
      | zero =>
        simp only [nthAdultIdx?, if_pos hp] at h
        cases h
        simp [setAtNthAdult, hp]
      | succ n =>
        simp only [nthAdultIdx?, if_pos hp, Option.map_eq_some'] at h
        obtain ⟨i2, h2, rfl⟩ := h
        simpa [setAtNthAdult, hp] using ih h2
    · simp only [nthAdultIdx?, if_neg hp, Option.map_eq_some'] at h
      obtain ⟨i2, h2, rfl⟩ := h
      simpa [setAtNthAdult, hp] using ih h2

/-- setAtNthAdult leaves every other position unchanged. -/
theorem setAtNthAdult_get_ne {f : Person → Person} {n i : Nat} {ms : List Person}
    (h : nthAdultIdx? n ms = some i) (j : Nat) (hj : j ≠ i) :
    (setAtNthAdult f n ms)[j]? = ms[j]? := by
  induction ms generalizing n i j with
  | nil => simp [nthAdultIdx?] at h
  | cons p rest ih =>
    by_cases hp : 18 ≤ p.age
    · cases n with
      | zero =>
        simp only [nthAdultIdx?, if_pos hp] at h
        cases h
        cases j with
        | zero => exact absurd rfl hj
        | succ j => simp [setAtNthAdult, hp]
      | succ n =>
        simp only [nthAdultIdx?, if_pos hp, Option.map_eq_some'] at h
        obtain ⟨i2, h2, rfl⟩ := h
        cases j with
        | zero => simp [setAtNthAdult, hp]
        | succ j => simpa [setAtNthAdult, hp] using ih h2 j (by omega)
    · simp only [nthAdultIdx?, if_neg hp, Option.map_eq_some'] at h
      obtain ⟨i2, h2, rfl⟩ := h
      cases j with
      | zero => simp [setAtNthAdult, hp]
      | succ j => simpa [setAtNthAdult, hp] using ih h2 j (by omega)

/-- Adult positions are unaffected by age-preserving member updates. -/
theorem nthAdultIdx?_setAtNthAdult {f : Person → Person}
    (hf : ∀ p, (f p).age = p.age) (m n : Nat) (ms : List Person) :
    nthAdultIdx? n (setAtNthAdult f m ms) = nthAdultIdx? n ms := by
  induction ms generalizing m n with
  | nil => rfl
  | cons p rest ih =>
    by_cases hp : 18 ≤ p.age
    · cases m with
      | zero =>
        have hfp : 18 ≤ (f p).age := by rw [hf]; exact hp
        cases n <;> simp [setAtNthAdult, nthAdultIdx?, hp, hfp]
      | succ m =>
        cases n <;> simp [setAtNthAdult, nthAdultIdx?, hp, ih]
    · cases n <;> simp [setAtNthAdult, nthAdultIdx?, hp, ih]

/-- A boolean member attribute left alone by the update is preserved by
setAtNthAdult across the whole list. -/
theorem any_setAtNthAdult {f : Person → Person} {g : Person → Bool}
    (hf : ∀ p, g (f p) = g p) (n : Nat) (ms : List Person) :
    (setAtNthAdult f n ms).any g = ms.any g := by
  induction ms generalizing n with
  | nil => rfl
  | cons p rest ih =>
    by_cases hp : 18 ≤ p.age
    · cases n with
      | zero => simp [setAtNthAdult, hp, hf]
      | succ n => simp [setAtNthAdult, hp, ih]
    · simp [setAtNthAdult, hp, ih]

/-- Successive adult positions are strictly increasing. -/
theorem nthAdultIdx?_lt_succ {ms : List Person} {n i j : Nat}
    (h0 : nthAdultIdx? n ms = some i) (h1 : nthAdultIdx? (n + 1) ms = some j) :
    i < j := by
  induction ms generalizing n i j with
  | nil => simp [nthAdultIdx?] at h0
  | cons p rest ih =>
    by_cases hp : 18 ≤ p.age
    · cases n with
      | zero =>
        simp only [nthAdultIdx?, if_pos hp] at h0 h1
        cases h0
        obtain ⟨j2, h2, rfl⟩ := Option.map_eq_some'.mp h1
        omega
      | succ n =>
        simp only [nthAdultIdx?, if_pos hp, Option.map_eq_some'] at h0 h1
        obtain ⟨i2, hi2, rfl⟩ := h0
        obtain ⟨j2, hj2, rfl⟩ := h1
        have := ih hi2 hj2
        omega
    · simp only [nthAdultIdx?, if_neg hp, Option.map_eq_some'] at h0 h1
      obtain ⟨i2, hi2, rfl⟩ := h0
      obtain ⟨j2, hj2, rfl⟩ := h1
      have := ih hi2 hj2
      omega

/-- Bridge between optional indexing and defaulted indexing. -/
theorem getD_of_getElem? {α : Type} {l : List α} {i : Nat} {v d : α}
    (h : l[i]? = some v) : l.getD i d = v := by
  simp [List.getD, h]

/-- Role assignment does nothing when some member is already marked head. -/
theorem assignTaxUnitRoles_of_any_head {ms : List Person}
    (h : (ms.any fun m => m.is_tax_unit_head) = true) :
    assignTaxUnitRoles ms = ms := by
  simp [assignTaxUnitRoles, h]

/-- Role assignment does nothing when no member is an adult. -/
theorem assignTaxUnitRoles_of_no_adult {ms : List Person}
    (h : (ms.filter fun m => 18 ≤ m.age) = []) :
    assignTaxUnitRoles ms = ms := by
  simp [assignTaxUnitRoles, h]

/-- When no head is marked and an adult exists, role assignment marks the
first adult as head, and additionally the second adult as spouse exactly
when a second adult exists and no spouse is marked. -/
theorem assignTaxUnitRoles_no_head {ms : List Person}
    (hh : (ms.any fun m => m.is_tax_unit_head) = false)
    (hadult : 0 < (ms.filter fun m => 18 ≤ m.age).length) :
    assignTaxUnitRoles ms =
      if 1 < (ms.filter fun m => 18 ≤ m.age).length ∧
          (ms.any fun m => m.is_tax_unit_spouse) = false then
        setAtNthAdult setSpouse 1 (setAtNthAdult setHead 0 ms)
      else setAtNthAdult setHead 0 ms := by
  have hne : (ms.filter fun m => 18 ≤ m.age).isEmpty = false := by
    cases hfe : ms.filter fun m => 18 ≤ m.age
    · rw [hfe] at hadult
      simp at hadult
    · rfl
  have hsp : ((setAtNthAdult setHead 0 ms).any fun m => m.is_tax_unit_spouse) =
      (ms.any fun m => m.is_tax_unit_spouse) :=
    @any_setAtNthAdult setHead (fun m => m.is_tax_unit_spouse) (fun _ => rfl) 0 ms
  simp only [assignTaxUnitRoles, hne, hh, hsp]
  simp

/-- assignTaxUnitRoles satisfies the corrected role contract. -/
theorem roles_spec (ms : List Person) : Roles ms (assignTaxUnitRoles ms) := by
  constructor
  · exact fun hh => assignTaxUnitRoles_of_any_head hh
  · intro hh
    constructor
    · intro i hi
      have hadult : 0 < (ms.filter fun m => 18 ≤ m.age).length := by
        rw [← nthAdultIdx?_isSome_iff]
        simp [hi]
      have hlt := nthAdultIdx?_lt_length hi
      have hget1 : (setAtNthAdult setHead 0 ms)[i]? = some (setHead ms[i]) := by
        rw [setAtNthAdult_get_eq hi, List.getElem?_eq_getElem hlt]
        rfl
      rw [assignTaxUnitRoles_no_head hh hadult]
      split
      · rename_i hc
        have h1s : (nthAdultIdx? 1 ms).isSome = true := by
          rw [nthAdultIdx?_isSome_iff]
          exact hc.1
        obtain ⟨j, hj⟩ := Option.isSome_iff_exists.mp h1s
        have hj1 : nthAdultIdx? 1 (setAtNthAdult setHead 0 ms) = some j := by
          rw [@nthAdultIdx?_setAtNthAdult setHead (fun _ => rfl) 0 1 ms]
          exact hj
        have hij : i < j := nthAdultIdx?_lt_succ hi hj
        have hne2 : (setAtNthAdult setSpouse 1 (setAtNthAdult setHead 0 ms))[i]? =
            (setAtNthAdult setHead 0 ms)[i]? :=
          setAtNthAdult_get_ne hj1 i (by omega)
        rw [getD_of_getElem? (by rw [hne2, hget1])]
        rfl
      · rw [getD_of_getElem? hget1]
        rfl
    · intro hsp j hj
      have hadult : 0 < (ms.filter fun m => 18 ≤ m.age).length := by
        rw [← nthAdultIdx?_isSome_iff (n := 0)]
        have h1 : (nthAdultIdx? 1 ms).isSome = true := by simp [hj]
        rw [nthAdultIdx?_isSome_iff] at h1
        rw [nthAdultIdx?_isSome_iff]
        omega
      have h2adult : 1 < (ms.filter fun m => 18 ≤ m.age).length := by
        have h1 : (nthAdultIdx? 1 ms).isSome = true := by simp [hj]
        rw [nthAdultIdx?_isSome_iff] at h1
        exact h1
      have hj1 : nthAdultIdx? 1 (setAtNthAdult setHead 0 ms) = some j := by
        rw [@nthAdultIdx?_setAtNthAdult setHead (fun _ => rfl) 0 1 ms]
        exact hj
      have hjlt : j < (setAtNthAdult setHead 0 ms).length := by
        rw [setAtNthAdult_length]
        exact nthAdultIdx?_lt_length hj
      rw [assignTaxUnitRoles_no_head hh hadult, if_pos ⟨h2adult, hsp⟩]
      rw [getD_of_getElem? (by
        rw [setAtNthAdult_get_eq hj1, List.getElem?_eq_getElem hjlt]
        rfl)]
      rfl

/-! ### Claim C5 — the role-assignment invariant -/

/-- Counterexample to claim C5: constructing a household from a marked
head plus an unmarked second adult leaves the member list unchanged — the
second adult does NOT become spouse, because the source only assigns the
spouse inside the branch taken when no head was marked, while the claim
demands spouse assignment even when a head was already explicitly marked. -/
theorem claim5_counterexample :
    Household.make "CA" [pHeadMarked, pSecondAdult] 2024 none none =
      some { state := "CA", members := [pHeadMarked, pSecondAdult], year := 2024 } ∧
    (([pHeadMarked, pSecondAdult] : List Person).any fun m => m.is_tax_unit_spouse) = false ∧
    nthAdultIdx? 1 [pHeadMarked, pSecondAdult] = some 1 ∧
    (([pHeadMarked, pSecondAdult] : List Person).getD 1 defaultPerson).is_tax_unit_spouse
      = false := by
  refine ⟨?_, by decide, by decide, by decide⟩
  decide

/-- Claim C5 (amended): after construction and after every add_member, the
corrected role contract holds — if no head is marked, the first adult is
head and (when a second adult exists and no spouse is marked) the second
adult is spouse; if a head was already marked, role assignment changes
nothing, so in particular no spouse is auto-assigned. -/
theorem claim5_roles_invariant :
    (∀ (st : String) (ms : List Person) (y : Int) (c z : Option String) (h2 : Household),
      Household.make st ms y c z = some h2 → Roles ms h2.members) ∧
    (∀ (h : Household) (p : Person), Roles (h.members ++ [p]) ((h.add_member p).members)) := by
  constructor
  · intro st ms y c z h2 hmk
    unfold Household.make at hmk
    split at hmk
    · exact absurd hmk (by simp)
    · cases hmk
      exact roles_spec ms
  · intro h p
    exact roles_spec (h.members ++ [p])

/-- Witness for claim C5 (amended): the corrected role contract holds for
a concrete constructed household with two unmarked adults. -/
theorem claim5_witness :
    Household.make "CA" w5in 2024 none none = some w5out ∧ Roles w5in w5out.members :=
  ⟨by decide, claim5_roles_invariant.1 "CA" w5in 2024 none none w5out (by decide)⟩

/-! ### Claim C9 — Marriage on an all-minor household -/

/-- On a nonempty household, copy() succeeds and re-runs role assignment
on the copied members. -/
theorem copy_eq {h : Household} (hne : h.members ≠ []) :
    h.copy = some { h with members := assignTaxUnitRoles h.members } := by
  have hf : h.members.isEmpty = false := by
    cases hm : h.members
    · exact absurd hm hne
    · rfl
  simp [Household.copy, Household.make, hf]

/-- With only minors in front, the first-adult update lands on the person
just appended. -/
theorem setAtNthAdult_append_minor {f : Person → Person} {ms : List Person} {p : Person}
    (hm : ∀ m ∈ ms, ¬ 18 ≤ m.age) (hp : 18 ≤ p.age) :
    setAtNthAdult f 0 (ms ++ [p]) = ms ++ [f p] := by
  induction ms with
  | nil => simp [setAtNthAdult, hp]
  | cons q rest ih =>
    have hq : ¬ 18 ≤ q.age := hm q (by simp)
    simp only [List.cons_append, setAtNthAdult, if_neg hq]
    exact congrArg (q :: ·) (ih fun m hmem => hm m (List.mem_cons_of_mem q hmem))

/-- Adding members to a household that already has a head only appends:
role assignment never fires again. -/
theorem foldl_add_member_of_any_head (cs : List Person) (h : Household)
    (hh : (h.members.any fun m => m.is_tax_unit_head) = true) :
    (cs.foldl Household.add_member h).members = h.members ++ cs := by
  induction cs generalizing h with
  | nil => simp
  | cons c rest ih =>
    have hh2 : ((h.members ++ [c]).any fun m => m.is_tax_unit_head) = true := by
      simp only [List.any_append, hh, Bool.true_or]
    have hstep : (h.add_member c).members = h.members ++ [c] := by
      simp [Household.add_member, assignTaxUnitRoles_of_any_head hh2]
    simp only [List.foldl_cons]
    rw [ih (h.add_member c) (by rw [hstep]; exact hh2), hstep]
    simp

/-- A household of minors none of whom is marked: its member list carries
no head and no adult. -/
theorem minor_household_facts {ms : List Person}
    (hminor : ∀ m ∈ ms, m.age < 18 ∧ m.is_tax_unit_head = false ∧ m.is_tax_unit_spouse = false) :
    (ms.any fun m => m.is_tax_unit_head) = false ∧
    (ms.any fun m => m.is_tax_unit_spouse) = false ∧
    (ms.filter fun m => 18 ≤ m.age) = [] := by
  refine ⟨?_, ?_, ?_⟩
  · rw [List.any_eq_false]
    intro m hm
    simp [(hminor m hm).2.1]
  · rw [List.any_eq_false]
    intro m hm
    simp [(hminor m hm).2.2]
  · rw [List.filter_eq_nil_iff]
    intro m hm
    simp only [decide_eq_true_eq]
    exact not_le.mpr (hminor m hm).1

/-- Counterexample to claim C9: a household whose only member is a minor
explicitly marked head and spouse is all-under-18, yet Marriage.validate
rejects it (a spouse already exists), contradicting the claim that every
all-minor household validates. -/
theorem claim9_counterexample :
    (∀ m ∈ ({ state := "CA",
              members := [{ age := 10, is_tax_unit_head := true, is_tax_unit_spouse := true }],
              year := 2024 : Household }).members, m.age < 18) ∧
    Event.validate (.marriage 30 0 0 [])
      { state := "CA",
        members := [{ age := 10, is_tax_unit_head := true, is_tax_unit_spouse := true }],
        year := 2024 } ≠ [] := by
  constructor
  · decide
  · intro hc
    exact absurd hc (by decide)

/-- Claim C9 (amended): on a household whose members are all minors with
no head or spouse marks, Marriage (spouse at least 18, non-negative
income) validates, and the appended spouse ends up marked BOTH tax-unit
head and tax-unit spouse. -/
theorem claim9_marriage_head_and_spouse (h : Household) (a : Int) (ei ssei : Rat)
    (cs : List Person) (hne : h.members ≠ [])
    (hminor : ∀ m ∈ h.members,
      m.age < 18 ∧ m.is_tax_unit_head = false ∧ m.is_tax_unit_spouse = false)
    (hage : 18 ≤ a) (hinc : 0 ≤ ei) :
    Event.validate (.marriage a ei ssei cs) h = [] ∧
    ∀ h2, Event.apply (.marriage a ei ssei cs) h = some h2 →
      h2.members[h.members.length]? = some (spouseBoth a ei ssei) := by
  obtain ⟨hnh, hns, hnad⟩ := minor_household_facts hminor
  constructor
  · simp [Event.validate, hns, not_lt.mpr hage, not_lt.mpr hinc]
  · intro h2 happ
    rw [Event.apply] at happ
    rw [copy_eq hne] at happ
    rw [assignTaxUnitRoles_of_no_adult hnad] at happ
    simp only [Option.bind_eq_bind, Option.some_bind, Option.pure_def,
      Option.some.injEq] at happ
    set sp : Person :=
      { age := a, employment_income := ei, self_employment_income := ssei,
        is_tax_unit_spouse := true } with hsp
    have hadd : (Household.add_member { h with members := h.members } sp).members =
        h.members ++ [setHead sp] := by
      simp only [Household.add_member]
      have hhead2 : ((h.members ++ [sp]).any fun m => m.is_tax_unit_head) = false := by
        simp [List.any_append, hnh, hsp]
      have hadults2 : 0 < ((h.members ++ [sp]).filter fun m => 18 ≤ m.age).length := by
        simp [List.filter_append, hnad, hsp, hage]
      rw [assignTaxUnitRoles_no_head hhead2 hadults2]
      have hlen1 : (((h.members ++ [sp]).filter fun m => 18 ≤ m.age)).length = 1 := by
        simp [List.filter_append, hnad, hsp, hage]
      rw [if_neg (by rw [hlen1]; simp)]
      exact setAtNthAdult_append_minor
        (fun m hm => not_le.mpr (hminor m hm).1) (by simpa [hsp] using hage)
    have hfold := foldl_add_member_of_any_head cs
      (Household.add_member { h with members := h.members } sp)
      (by rw [hadd]; simp [List.any_append, setHead])
    rw [← happ]
    rw [hfold, hadd]
    have : (h.members ++ [setHead sp]) ++ cs = h.members ++ ([setHead sp] ++ cs) := by
      simp
    rw [this, List.getElem?_append_right (by simp)]
    simp [hsp, setHead, spouseBoth]

/-- Witness for claim C9 (amended): a concrete all-minor household on
which Marriage validates and the appended spouse carries both roles. -/
theorem claim9_witness :
    Event.validate (.marriage 30 0 0 []) h9w = [] ∧
    h9res.members[1]? = some (spouseBoth 30 0 0) :=
  ⟨(claim9_marriage_head_and_spouse h9w 30 0 0 [] (by decide) (by decide) (by decide)
      (by decide)).1,
   (claim9_marriage_head_and_spouse h9w 30 0 0 [] (by decide) (by decide) (by decide)
      (by decide)).2 h9res (by decide)⟩

/-! ### Index-removal machinery (claim C7 and the Divorce success lemma) -/

/-- pyIndex succeeds below the length. -/
theorem pyIndex_of_nonneg {n : Nat} {i : Int} (h0 : 0 ≤ i) (h1 : i < (n : Int)) :
    pyIndex n i = some i.toNat := by
  simp only [pyIndex]
  rw [if_neg (by omega : ¬ i < 0), if_pos ⟨h0, h1⟩]

/-- pyIndex bounds its result. -/
theorem pyIndex_lt {n : Nat} {i : Int} {j : Nat} (h : pyIndex n i = some j) : j < n := by
  simp only [pyIndex] at h
  split at h <;> split at h <;> rename_i hc <;> first
    | (cases h; omega)
    | cases h

/-- pop at a valid non-negative index. -/
theorem pyPop_eq {l : List Person} {i : Int} (h0 : 0 ≤ i) (h1 : i < (l.length : Int)) :
    pyPop l i = some (listRemove i.toNat l) := by
  simp [pyPop, pyIndex_of_nonneg h0 h1]

/-- Removing a valid position shortens the list by one. -/
theorem listRemove_length {α : Type} {l : List α} {k : Nat} (h : k < l.length) :
    (listRemove k l).length = l.length - 1 := by
  induction l generalizing k with
  | nil => simp at h
  | cons a as ih =>
    cases k with
    | zero => simp [listRemove]
    | succ k =>
      have hk : k < as.length := by simpa using h
      have has : 0 < as.length := by omega
      simp [listRemove, ih hk]
      omega

/-- Every element of the shortened list came from the original. -/
theorem mem_listRemove {α : Type} {l : List α} {k : Nat} {x : α}
    (h : x ∈ listRemove k l) : x ∈ l := by
  induction l generalizing k with
  | nil => simp [listRemove] at h
  | cons a as ih =>
    cases k with
    | zero =>
      simp only [listRemove] at h
      exact List.mem_cons_of_mem a h
    | succ k =>
      simp only [listRemove, List.mem_cons] at h
      rcases h with h | h
      · simp [h]
      · exact List.mem_cons_of_mem a (ih h)

/-- Positions all beyond the running counter are never removed. -/
theorem keepIdx_high {S : List Int} {n : Int} (hS : ∀ j ∈ S, j < n) :
    ∀ l : List Person, keepIdx S n l = l := by
  intro l
  induction l generalizing n with
  | nil => rfl
  | cons a as ih =>
    have hn : n ∉ S := fun hmem => absurd (hS n hmem) (by omega)
    simp only [keepIdx, if_neg hn]
    rw [ih fun j hj => by have := hS j hj; omega]

/-- Dropping the largest index first: removing position i (all other
listed positions being smaller) commutes with the membership filter. -/
theorem keepIdx_cons_remove {T : List Int} {i : Int} (hT : ∀ j ∈ T, j < i) :
    ∀ (l : List Person) (n : Int), 0 ≤ n → n ≤ i →
      keepIdx (i :: T) n l = keepIdx T n (listRemove (i - n).toNat l) := by
  intro l
  induction l with
  | nil => intro n _ _; simp [keepIdx, listRemove]
  | cons a as ih =>
    intro n hn0 hni
    by_cases hni2 : n = i
    · subst hni2
      have h0 : (n - n).toNat = 0 := by omega
      rw [h0]
      have hmem : n ∈ n :: T := List.mem_cons_self n T
      simp only [keepIdx, listRemove, if_pos hmem]
      rw [keepIdx_high (fun j hj => by
        rcases List.mem_cons.mp hj with rfl | hj
        · omega
        · have := hT j hj
          omega)]
      rw [keepIdx_high (fun j hj => by
        have := hT j hj
        omega)]
    · have hlt : n < i := by omega
      have hsucc : (i - n).toNat = (i - (n + 1)).toNat + 1 := by omega
      rw [hsucc]
      simp only [listRemove, keepIdx]
      have hmem : ((n ∈ i :: T) ↔ (n ∈ T)) := by
        simp [List.mem_cons]
        intro he
        omega
      by_cases hnT : n ∈ T
      · rw [if_pos (hmem.mpr hnT), if_pos hnT]
        exact ih (n + 1) (by omega) (by omega)
      · rw [if_neg (fun hc => hnT (hmem.mp hc)), if_neg hnT]
        rw [ih (n + 1) (by omega) (by omega)]

/-- Popping a strictly descending list of valid indices equals filtering
those positions out in one pass. -/
theorem popAll_eq_keepIdx : ∀ (T : List Int) (l : List Person),
    List.Sorted (fun a b => b ≤ a) T → T.Nodup →
    (∀ j ∈ T, 0 ≤ j ∧ j < (l.length : Int)) →
    popAll l T = some (keepIdx T 0 l) := by
  intro T
  induction T with
  | nil =>
    intro l _ _ _
    simp [popAll, keepIdx_high (S := []) (by simp)]
  | cons i T2 ih =>
    intro l hs hn hr
    have hi := hr i (List.mem_cons_self i T2)
    have hTlt : ∀ j ∈ T2, j < i := by
      intro j hj
      have hle : j ≤ i := (List.pairwise_cons.mp hs).1 j hj
      have hne : j ≠ i := fun he => (List.nodup_cons.mp hn).1 (he ▸ hj)
      omega
    have hlen : (listRemove i.toNat l).length = l.length - 1 :=
      listRemove_length (by omega)
    simp only [popAll, pyPop_eq hi.1 hi.2]
    rw [ih (listRemove i.toNat l) ((List.pairwise_cons.mp hs).2) ((List.nodup_cons.mp hn).2)
      (by
        intro j hj
        have := hTlt j hj
        have := hr j (List.mem_cons_of_mem i hj)
        rw [hlen]
        omega)]
    have hrw := keepIdx_cons_remove hTlt l 0 le_rfl hi.1
    rw [show (i - 0).toNat = i.toNat by omega] at hrw
    rw [hrw]

/-- Each successful pop shortens the list by one, so popping k indices
shortens it by k. -/
theorem popAll_length : ∀ (T : List Int) (l m : List Person),
    popAll l T = some m → m.length + T.length = l.length := by
  intro T
  induction T with
  | nil =>
    intro l m h
    cases h
    simp
  | cons i T2 ih =>
    intro l m h
    simp only [popAll] at h
    cases hpop : pyPop l i with
    | none => rw [hpop] at h; cases h
    | some l2 =>
      rw [hpop] at h
      have hlen2 : l2.length = l.length - 1 := by
        simp only [pyPop] at hpop
        cases hidx : pyIndex l.length i with
        | none => rw [hidx] at hpop; cases hpop
        | some j =>
          rw [hidx] at hpop
          cases hpop
          exact listRemove_length (pyIndex_lt hidx)
      have hl0 : 0 < l.length := by
        simp only [pyPop] at hpop
        cases hidx : pyIndex l.length i with
        | none => rw [hidx] at hpop; cases hpop
        | some j => have := pyIndex_lt hidx; omega
      have := ih l2 m h
      simp only [List.length_cons]
      omega

/-- Membership in the descending dedup ordering matches the raw list. -/
theorem mem_sortDescDedup {S : List Int} {j : Int} : j ∈ sortDescDedup S ↔ j ∈ S :=
  ((List.perm_insertionSort (fun a b => b ≤ a) S.dedup).mem_iff).trans (List.mem_dedup)

/-- The descending dedup ordering is sorted. -/
theorem sorted_sortDescDedup (S : List Int) :
    List.Sorted (fun a b => b ≤ a) (sortDescDedup S) :=
  List.sorted_insertionSort (fun a b => b ≤ a) S.dedup

/-- The descending dedup ordering has no duplicates. -/
theorem nodup_sortDescDedup (S : List Int) : (sortDescDedup S).Nodup :=
  ((List.perm_insertionSort (fun a b => b ≤ a) S.dedup).nodup_iff).mpr (List.nodup_dedup S)

/-- The descending dedup ordering counts the distinct indices. -/
theorem length_sortDescDedup (S : List Int) :
    (sortDescDedup S).length = S.dedup.length :=
  (List.perm_insertionSort (fun a b => b ≤ a) S.dedup).length_eq

/-- The spouse-search loop returns a valid index carrying the flag. -/
theorem findSpouseIdx_spec {ms : List Person} {i : Nat}
    (h : findSpouseIdx ms = some i) :
    i < ms.length ∧ (ms.getD i defaultPerson).is_tax_unit_spouse = true := by
  induction ms generalizing i with
  | nil => simp [findSpouseIdx] at h
  | cons m rest ih =>
    by_cases hm : m.is_tax_unit_spouse
    · simp only [findSpouseIdx, if_pos hm] at h
      cases h
      simpa using hm
    · simp only [findSpouseIdx, if_neg hm, Option.map_eq_some'] at h
      obtain ⟨i2, h2, rfl⟩ := h
      have := ih h2
      constructor
      · simp only [List.length_cons]
        omega
      · simpa [List.getD_cons_succ] using this.2

/-- A marked spouse somewhere makes the spouse search succeed. -/
theorem findSpouseIdx_isSome {ms : List Person}
    (h : (ms.any fun m => m.is_tax_unit_spouse) = true) :
    (findSpouseIdx ms).isSome = true := by
  induction ms with
  | nil => simp at h
  | cons m rest ih =>
    by_cases hm : m.is_tax_unit_spouse
    · simp [findSpouseIdx, hm]
    · simp only [List.any_cons, hm, Bool.false_or] at h
      simp [findSpouseIdx, hm, isSome_map_succ, ih h]

/-- Unpacking a successful Divorce validation: a spouse exists and every
listed child index is in range and names neither the head nor the spouse. -/
theorem divorce_validate_facts {h : Household} {cls : Option (List Int)}
    (hval : Event.validate (.divorce cls) h = []) :
    (h.members.any fun m => m.is_tax_unit_spouse) = true ∧
    ∀ j ∈ childList cls, (0 ≤ j ∧ j < (h.members.length : Int)) ∧
      (h.members.getD j.toNat defaultPerson).is_tax_unit_head = false ∧
      (h.members.getD j.toNat defaultPerson).is_tax_unit_spouse = false := by
  simp only [Event.validate] at hval
  rw [List.append_eq_nil] at hval
  obtain ⟨h1, h2⟩ := hval
  constructor
  · by_cases hsp : (h.members.any fun m => m.is_tax_unit_spouse) = true
    · exact hsp
    · rw [if_neg hsp] at h1
      exact absurd h1 (by simp)
  · intro j hj
    simp only [childList] at hj
    split at hj
    · rename_i htr
      rw [if_pos htr, List.flatMap_eq_nil_iff] at h2
      have hfj := h2 j hj
      split at hfj
      · exact absurd hfj (by simp)
      · rename_i hrange
        push_neg at hrange
        split at hfj
        · exact absurd hfj (by simp)
        · split at hfj
          · exact absurd hfj (by simp)
          · rename_i hhead hspouse
            exact ⟨⟨hrange.1, hrange.2⟩, by simpa using hhead, by simpa using hspouse⟩
    · simp at hj

/-! ### Claim C7 — Divorce removal semantics -/

/-- Claim C7: on a role-stable household where Divorce validates, apply
removes exactly the spouse position and the listed child positions
(interpreted against the pre-removal list), keeping the relative order of
the remaining members, and the member count drops by 1 plus the number of
distinct listed child indices. -/
theorem claim7_divorce_apply (h : Household) (cls : Option (List Int)) (i : Nat)
    (hfind : findSpouseIdx h.members = some i)
    (hval : Event.validate (.divorce cls) h = [])
    (hstable : RoleStable h) :
    Event.apply (.divorce cls) h =
      some { h with members := keepIdx ((i : Int) :: childList cls) 0 h.members } ∧
    (keepIdx ((i : Int) :: childList cls) 0 h.members).length +
      (1 + (childList cls).dedup.length) = h.members.length := by
  obtain ⟨hsp, hchild⟩ := divorce_validate_facts hval
  obtain ⟨hilt, hispouse⟩ := findSpouseIdx_spec hfind
  have hne : h.members ≠ [] := by
    intro hc
    rw [hc] at hilt
    simp at hilt
  have hiNotChild : (i : Int) ∉ childList cls := by
    intro hc
    have := (hchild (i : Int) hc).2.2
    rw [Int.toNat_ofNat] at this
    rw [hispouse] at this
    cases this
  have hrange : ∀ j ∈ sortDescDedup ((i : Int) :: childList cls),
      0 ≤ j ∧ j < (h.members.length : Int) := by
    intro j hj
    rw [mem_sortDescDedup] at hj
    rcases List.mem_cons.mp hj with rfl | hj
    · exact ⟨by omega, by omega⟩
    · exact (hchild j hj).1
  have hpop := popAll_eq_keepIdx (sortDescDedup ((i : Int) :: childList cls)) h.members
    (sorted_sortDescDedup _) (nodup_sortDescDedup _) hrange
  have hcongr : keepIdx (sortDescDedup ((i : Int) :: childList cls)) 0 h.members =
      keepIdx ((i : Int) :: childList cls) 0 h.members := by
    clear hpop
    generalize (0 : Int) = n
    induction h.members generalizing n with
    | nil => rfl
    | cons a as ih =>
      simp only [keepIdx]
      by_cases hmem : n ∈ sortDescDedup ((i : Int) :: childList cls)
      · rw [if_pos hmem, if_pos (mem_sortDescDedup.mp hmem), ih]
      · rw [if_neg hmem, if_neg (fun hc => hmem (mem_sortDescDedup.mpr hc)), ih]
  constructor
  · simp only [Event.apply]
    rw [copy_eq hne]
    have hmembers : { h with members := assignTaxUnitRoles h.members } = h := by
      rw [hstable]
    rw [hmembers]
    simp only [Option.bind_eq_bind, Option.some_bind, hfind]
    rw [show ((if listTruthy cls then cls.getD [] else []) : List Int) = childList cls
      from rfl]
    rw [show ([(i : Int)] ++ childList cls : List Int) = (i : Int) :: childList cls by simp]
    rw [hpop, hcongr]
    rfl
  · have hlenpop := popAll_length _ _ _ hpop
    rw [hcongr] at hlenpop
    rw [length_sortDescDedup] at hlenpop
    rw [List.dedup_cons_of_not_mem hiNotChild] at hlenpop
    simp only [List.length_cons] at hlenpop
    omega

/-- Witness for claim C7: divorcing the concrete married household with
the child at index 2 leaving keeps only the head, and the count drops by
two. -/
theorem claim7_witness :
    Event.apply (.divorce (some [2])) h7w = some h7res ∧
    (keepIdx ((1 : Int) :: childList (some [2])) 0 h7w.members).length +
      (1 + (childList (some [2])).dedup.length) = h7w.members.length :=
  ⟨(claim7_divorce_apply h7w (some [2]) 1 (by decide) (by decide) (by decide)).1,
   (claim7_divorce_apply h7w (some [2]) 1 (by decide) (by decide) (by decide)).2⟩

/-! ### Claim C1 — validation aborts before any engine work -/

/-- Claim C1: whenever validation fails, compare fails with the
validation error carrying the joined messages, for EVERY engine function
(the result does not depend on the engine at all, so no engine output can
influence it and no partial result is returned). -/
theorem claim1_validation_aborts (engine : Engine) (h : Household) (e : Event)
    (vs : Option (List String)) (hval : e.validate h ≠ []) :
    compare engine h e vs =
      Except.error (CompareError.validationError
        ("Cannot apply " ++ e.name ++ ": " ++ String.intercalate "; " (e.validate h))) := by
  simp [compare, hval]

/-- Witness for claim C1: divorcing the concrete spouseless household
fails validation, and compare returns exactly the joined-message error. -/
theorem claim1_witness :
    Event.validate (.divorce none) hHeadOnly ≠ [] ∧
    compare (fun _ _ _ => none) hHeadOnly (.divorce none) none =
      Except.error (CompareError.validationError
        "Cannot apply Divorce: Household has no spouse to divorce") := by
  constructor
  · decide
  · rw [claim1_validation_aborts (fun _ _ _ => none) hHeadOnly (.divorce none) none
      (by decide)]
    rfl

/-! ### Claim C2 — per-variable engine failures are absorbed -/

/-- Looking a key up in the tracked-variable table built by mapping over
the variable list yields the mapped value. -/
theorem assocLookup_map {β : Type} (f : String → β) (l : List String) (v : String)
    (hv : v ∈ l) : assocLookup v (l.map fun u => (u, f u)) = some (f v) := by
  induction l with
  | nil => simp at hv
  | cons u rest ih =>
    by_cases hu : u = v
    · subst hu
      simp [assocLookup]
    · rcases List.mem_cons.mp hv with rfl | hv2
      · exact absurd rfl hu
      · simp only [List.map_cons, assocLookup, if_neg hu]
        exact ih hv2

/-- pyModify at a valid non-negative index. -/
theorem pyModify_eq {α : Type} (l : List α) (i : Int) (f : α → α)
    (h0 : 0 ≤ i) (h1 : i < (l.length : Int)) :
    pyModify l i f = some (listModify f i.toNat l) := by
  simp [pyModify, pyIndex_of_nonneg h0 h1]

/-- Role assignment keeps the member count. -/
theorem assignTaxUnitRoles_length (ms : List Person) :
    (assignTaxUnitRoles ms).length = ms.length := by
  simp only [assignTaxUnitRoles]
  split
  · split
    · rw [setAtNthAdult_length, setAtNthAdult_length]
    · rw [setAtNthAdult_length]
  · rfl

/-- Role assignment never erases an existing spouse mark. -/
theorem any_spouse_assignTaxUnitRoles {ms : List Person}
    (h : (ms.any fun m => m.is_tax_unit_spouse) = true) :
    ((assignTaxUnitRoles ms).any fun m => m.is_tax_unit_spouse) = true := by
  have hms1 : ((setAtNthAdult setHead 0 ms).any fun m => m.is_tax_unit_spouse) = true := by
    rw [@any_setAtNthAdult setHead (fun m => m.is_tax_unit_spouse) (fun _ => rfl) 0 ms]
    exact h
  simp only [assignTaxUnitRoles]
  split
  · rw [if_neg fun hc => hc.2 hms1]
    exact hms1
  · exact h

/-- Once validation has passed on a nonempty household, every event's
apply succeeds (no IndexError can escape). -/
theorem apply_isSome_of_valid (e : Event) (h : Household)
    (hne : h.members ≠ []) (hval : e.validate h = []) :
    (e.apply h).isSome = true := by
  have hcopy := copy_eq hne
  cases e with
  | newChild age => simp [Event.apply, hcopy]
  | marriage a ei ssei cs => simp [Event.apply, hcopy]
  | move st => simp [Event.apply, hcopy]
  | losingESI who => simp [Event.apply, hcopy]
  | divorce cls =>
    obtain ⟨hsp, hchild⟩ := divorce_validate_facts hval
    have hsp2 := any_spouse_assignTaxUnitRoles hsp
    obtain ⟨i, hi⟩ := Option.isSome_iff_exists.mp (findSpouseIdx_isSome hsp2)
    obtain ⟨hilt, hispouse⟩ := findSpouseIdx_spec hi
    have hlen := assignTaxUnitRoles_length h.members
    have hpop := popAll_eq_keepIdx
      (sortDescDedup ((i : Int) :: childList cls)) (assignTaxUnitRoles h.members)
      (sorted_sortDescDedup _) (nodup_sortDescDedup _)
      (by
        intro j hj
        rw [mem_sortDescDedup] at hj
        rcases List.mem_cons.mp hj with rfl | hj
        · rw [hlen] at hilt
          exact ⟨by omega, by omega⟩
        · rw [hlen]
          exact (hchild j hj).1)
    simp only [childList] at hpop
    simp [Event.apply, hcopy, hi, hpop]
  | jobChange idx ni ic =>
    simp only [Event.validate] at hval
    split at hval
    · simp at hval
    · rename_i hgood
      push_neg at hgood
      simp [Event.apply, hcopy,
        pyModify_eq (assignTaxUnitRoles h.members) idx _ hgood.1
          (by rw [assignTaxUnitRoles_length]; exact hgood.2)]
  | unemployment idx uc sev =>
    simp only [Event.validate] at hval
    split at hval
    · simp at hval
    · rename_i hgood
      push_neg at hgood
      simp [Event.apply, hcopy,
        pyModify_eq (assignTaxUnitRoles h.members) idx _ hgood.1
          (by rw [assignTaxUnitRoles_length]; exact hgood.2)]
  | retirement idx ssa keep pei =>
    simp only [Event.validate] at hval
    split at hval
    · simp at hval
    · rename_i hgood
      push_neg at hgood
      simp [Event.apply, hcopy,
        pyModify_eq (assignTaxUnitRoles h.members) idx _ hgood.1
          (by rw [assignTaxUnitRoles_length]; exact hgood.2)]
  | pregnancy idx =>
    simp only [Event.validate] at hval
    split at hval
    · simp at hval
    · rename_i hgood
      push_neg at hgood
      simp [Event.apply, hcopy,
        pyModify_eq (assignTaxUnitRoles h.members) idx _ hgood.1
          (by rw [assignTaxUnitRoles_length]; exact hgood.2)]
  | medicareTransition idx =>
    simp only [Event.validate] at hval
    split at hval
    · simp at hval
    · rename_i hgood
      push_neg at hgood
      simp [Event.apply, hcopy,
        pyModify_eq (assignTaxUnitRoles h.members) idx _ hgood.1
          (by rw [assignTaxUnitRoles_length]; exact hgood.2)]
  | childAgingOut idx ty =>
    simp only [Event.validate] at hval
    split at hval
    · simp at hval
    · rename_i hgood
      push_neg at hgood
      simp [Event.apply, hcopy,
        pyModify_eq (assignTaxUnitRoles h.members) idx _ hgood.1
          (by rw [assignTaxUnitRoles_length]; exact hgood.2)]

/-- Coverage extraction succeeds whenever the engine avoids bare scalars
for medicaid and chip. -/
theorem extractHealthcare_isSome (engine : Engine) (s : Situation) (h : Household)
    (y : Int)
    (hm : ∀ x, engine s y "medicaid" ≠ some (EngineValue.scalar x))
    (hc : ∀ x, engine s y "chip" ≠ some (EngineValue.scalar x)) :
    (extractHealthcare engine s h y).isSome = true := by
  cases hme : engine s y "medicaid" with
  | some vm =>
    cases vm with
    | scalar x => exact absurd hme (hm x)
    | array xs =>
      cases hce : engine s y "chip" with
      | some vc =>
        cases vc with
        | scalar x2 => exact absurd hce (hc x2)
        | array ys => simp [extractHealthcare, hme, hce]
      | none => simp [extractHealthcare, hme, hce]
  | none =>
    cases hce : engine s y "chip" with
    | some vc =>
      cases vc with
      | scalar x2 => exact absurd hce (hc x2)
      | array ys => simp [extractHealthcare, hme, hce]
    | none => simp [extractHealthcare, hme, hce]

/-- Counterexample to claim C2: an engine answering every call with a
bare scalar makes compare fail with an uncaught error even though
validation passed — the scalar result for medicaid reaches the unguarded
len()/indexing code in coverage extraction.  So compare does NOT succeed
for every engine behavior once validation has passed. -/
theorem claim2_counterexample :
    Event.validate (.move "TX") hHeadOnly = [] ∧
    compare scalarEngine hHeadOnly (.move "TX") none = Except.error CompareError.exn := by
  constructor
  · decide
  · rfl

/-- Claim C2 (amended): a per-variable engine failure is recorded as 0.0
for that variable (never propagated), and once validation has passed on a
(nonempty) household, compare succeeds for every engine behavior that
never returns a bare scalar for the per-person variables medicaid and
chip. -/
theorem claim2_engine_absorption :
    (∀ (engine : Engine) (s : Situation) (y : Int) (v : String),
      v ∈ OUTPUT_VARIABLES → engine s y v = none →
      assocLookup v (runSimulation engine s y) = some 0) ∧
    (∀ (engine : Engine) (h : Household) (e : Event) (vs : Option (List String)),
      h.members ≠ [] → e.validate h = [] → healthArraysOk engine →
      (compare engine h e vs).isOk = true) := by
  constructor
  · intro engine s y v hv he
    rw [runSimulation, assocLookup_map (calcVar engine s y) OUTPUT_VARIABLES v hv]
    simp [calcVar, he]
  · intro engine h e vs hne hval hok
    obtain ⟨h2, h2eq⟩ := Option.isSome_iff_exists.mp (apply_isSome_of_valid e h hne hval)
    obtain ⟨hb, hbeq⟩ := Option.isSome_iff_exists.mp
      (extractHealthcare_isSome engine h.to_situation h h.year
        (hok h.to_situation h.year).1 (hok h.to_situation h.year).2)
    obtain ⟨ha, haeq⟩ := Option.isSome_iff_exists.mp
      (extractHealthcare_isSome engine h2.to_situation h2 h2.year
        (hok h2.to_situation h2.year).1 (hok h2.to_situation h2.year).2)
    simp [compare, hval, h2eq, hbeq, haeq]
    rfl

/-- Witness for claim C2 (amended): on the all-raising engine the snap
variable is recorded as 0.0, and the concrete move comparison succeeds. -/
theorem claim2_witness :
    assocLookup "snap" (runSimulation noneEngine hHeadOnly.to_situation 2024) = some 0 ∧
    (compare noneEngine hHeadOnly (.move "TX") none).isOk = true :=
  ⟨claim2_engine_absorption.1 noneEngine hHeadOnly.to_situation 2024 "snap"
      (by decide) rfl,
   claim2_engine_absorption.2 noneEngine hHeadOnly (.move "TX") none (by decide)
      (by decide)
      (fun s y => ⟨fun x hx => Option.noConfusion hx, fun x hx => Option.noConfusion hx⟩)⟩

/-! ### Store-level model (claim C6)

Claim C6 is about Python object identity: whether apply can mutate the
Person objects of its input household, and whether the returned household
can share Person objects with the input.  That is invisible to the value
embedding above, so the same source methods are re-embedded here over an
explicit store: Person objects live at addresses (allocation appends), a
household holds member addresses, and the in-place flag/field mutations
become store writes at the targeted address. -/

/-! ### Frame lemmas over the store -/

/-- listModify keeps the length. -/
theorem listModify_length {α : Type} (f : α → α) (k : Nat) (l : List α) :
    (listModify f k l).length = l.length := by
  induction l generalizing k with
  | nil => cases k <;> simp [listModify]
  | cons a as ih =>
    cases k with
    | zero => simp [listModify]
    | succ k => simp [listModify, ih]

/-- listModify leaves other positions alone. -/
theorem listModify_get_ne {α : Type} (f : α → α) (k : Nat) (l : List α) (j : Nat)
    (hj : j ≠ k) : (listModify f k l)[j]? = l[j]? := by
  induction l generalizing k j with
  | nil => cases k <;> simp [listModify]
  | cons a as ih =>
    cases k with
    | zero =>
      cases j with
      | zero => exact absurd rfl hj
      | succ j => simp [listModify]
    | succ k =>
      cases j with
      | zero => simp [listModify]
      | succ j => simpa [listModify] using ih k j (by omega)

/-- Defaulted reads only depend on the optional read. -/
theorem getD_congr {α : Type} {l l2 : List α} {i : Nat} {d : α}
    (h : l[i]? = l2[i]?) : l.getD i d = l2.getD i d := by
  simp [List.getD, List.get?_eq_getElem?, h]

/-- Reads below the old length pass through an append. -/
theorem readS_append {s : Store} (ext : List Person) {a : Addr} (h : a < s.length) :
    readS (s ++ ext) a = readS s a := by
  unfold readS
  exact getD_congr (by rw [List.getElem?_append]; rw [if_pos h])

/-- Reads at another address pass through a write. -/
theorem readS_writeS_ne {s : Store} {a b : Addr} (p : Person) (h : b ≠ a) :
    readS (writeS s a p) b = readS s b := by
  unfold readS writeS
  exact getD_congr (listModify_get_ne _ _ _ _ h)

/-- Writes keep the store length. -/
theorem writeS_length (s : Store) (a : Addr) (p : Person) :
    (writeS s a p).length = s.length :=
  listModify_length _ _ _

/-- The head of a nonempty list is a member. -/
theorem getD_mem_of_lt {α : Type} {l : List α} {i : Nat} (d : α) (h : i < l.length) :
    l.getD i d ∈ l := by
  rw [getD_of_getElem? (List.getElem?_eq_getElem h)]
  exact List.getElem_mem h

/-- Role assignment only writes at member addresses. -/
theorem assignRolesH_frame {s : Store} {addrs : List Addr} {b : Addr}
    (hb : b ∉ addrs) : readS (assignRolesH s addrs) b = readS s b := by
  simp only [assignRolesH]
  split
  · rename_i hc
    have hadne : (addrs.filter fun a => 18 ≤ (readS s a).age) ≠ [] := by
      intro he
      rw [he] at hc
      exact hc.1 rfl
    have hlen0 : 0 < (addrs.filter fun a => 18 ≤ (readS s a).age).length := by
      cases hfe : addrs.filter fun a => 18 ≤ (readS s a).age
      · exact absurd hfe hadne
      · simp [hfe]
    have ha0 : (addrs.filter fun a => 18 ≤ (readS s a).age).getD 0 0 ∈ addrs :=
      List.mem_of_mem_filter (getD_mem_of_lt 0 hlen0)
    split
    · rename_i hc2
      have ha1 : (addrs.filter fun a => 18 ≤ (readS s a).age).getD 1 0 ∈ addrs :=
        List.mem_of_mem_filter (getD_mem_of_lt 0 hc2.1)
      rw [readS_writeS_ne _ (fun he => hb (by rw [he]; exact ha1)),
        readS_writeS_ne _ (fun he => hb (by rw [he]; exact ha0))]
    · exact readS_writeS_ne _ (fun he => hb (by rw [he]; exact ha0))
  · rfl

/-- Role assignment keeps the store length. -/
theorem assignRolesH_length (s : Store) (addrs : List Addr) :
    (assignRolesH s addrs).length = s.length := by
  simp only [assignRolesH]
  split
  · split
    · rw [writeS_length, writeS_length]
    · rw [writeS_length]
  · rfl

/-- The deep-copy fold: the copies are exactly the next fresh addresses,
the store grows by the member count, and old objects are untouched. -/
theorem copy_fold_facts (ms : List Addr) : ∀ (s : Store) (acc : List Addr),
    (ms.foldl copyAllocAux (s, acc)).2 = acc ++ List.range' s.length ms.length ∧
    (ms.foldl copyAllocAux (s, acc)).1.length = s.length + ms.length ∧
    ∀ b < s.length, readS (ms.foldl copyAllocAux (s, acc)).1 b = readS s b := by
  induction ms with
  | nil =>
    intro s acc
    simp [List.range']
  | cons a rest ih =>
    intro s acc
    have hstep : copyAllocAux (s, acc) a = (s ++ [readS s a], acc ++ [s.length]) := rfl
    simp only [List.foldl_cons, hstep]
    obtain ⟨h1, h2, h3⟩ := ih (s ++ [readS s a]) (acc ++ [s.length])
    refine ⟨?_, ?_, ?_⟩
    · rw [h1]
      simp only [List.length_append, List.length_cons, List.length_nil]
      rw [List.range'_succ]
      simp
    · rw [h2]
      simp only [List.length_append, List.length_cons, List.length_nil]
      omega
    · intro b hb
      rw [h3 b (by simp only [List.length_append, List.length_cons, List.length_nil]; omega)]
      exact readS_append _ hb

/-- What copyH does to the store and to the returned member addresses. -/
theorem copyH_facts (s : Store) (h : HouseholdH) :
    (∀ b < s.length, readS (copyH s h).1 b = readS s b) ∧
    s.length ≤ (copyH s h).1.length ∧
    ∀ h4, (copyH s h).2 = some h4 →
      (∀ a ∈ h4.members, s.length ≤ a) ∧ h4.members.length = h.members.length := by
  obtain ⟨h1, h2, h3⟩ := copy_fold_facts h.members s []
  rw [List.nil_append] at h1
  by_cases hemp : (h.members.foldl copyAllocAux (s, [])).2.isEmpty
  · have hcopy1 : (copyH s h).1 = (h.members.foldl copyAllocAux (s, [])).1 := by
      simp only [copyH]
      rw [if_pos hemp]
    have hcopy2 : (copyH s h).2 = none := by
      simp only [copyH]
      rw [if_pos hemp]
    refine ⟨fun b hb => by rw [hcopy1]; exact h3 b hb,
      by rw [hcopy1, h2]; omega,
      fun h4 hc => by rw [hcopy2] at hc; cases hc⟩
  · have hcopy1 : (copyH s h).1 =
        assignRolesH (h.members.foldl copyAllocAux (s, [])).1
          (h.members.foldl copyAllocAux (s, [])).2 := by
      simp only [copyH]
      rw [if_neg hemp]
    have hcopy2 : (copyH s h).2 =
        some { h with members := (h.members.foldl copyAllocAux (s, [])).2 } := by
      simp only [copyH]
      rw [if_neg hemp]
    refine ⟨?_, ?_, ?_⟩
    · intro b hb
      rw [hcopy1, h1]
      rw [assignRolesH_frame (fun hmem => by
        rw [List.mem_range'_1] at hmem
        omega)]
      exact h3 b hb
    · rw [hcopy1, assignRolesH_length, h2]
      omega
    · intro h4 hc
      rw [hcopy2] at hc
      cases hc
      constructor
      · intro a ha
        simp only [h1, List.mem_range'_1] at ha
        omega
      · simp only [h1, List.length_range']

/-- A successful Python read returns a list element. -/
theorem pyGet_mem {α : Type} {l : List α} {i : Int} {x : α}
    (h : pyGet l i = some x) : x ∈ l := by
  simp only [pyGet] at h
  cases hidx : pyIndex l.length i with
  | none => rw [hidx] at h; cases h
  | some j =>
    rw [hidx] at h
    simp only [Option.some_bind] at h
    exact List.get?_mem h

/-- Popping only removes: every survivor was already a member. -/
theorem popAll_subset {α : Type} : ∀ (T : List Int) (l m : List α),
    popAll l T = some m → ∀ x ∈ m, x ∈ l := by
  intro T
  induction T with
  | nil =>
    intro l m h x hx
    cases h
    exact hx
  | cons i T2 ih =>
    intro l m h x hx
    simp only [popAll, pyPop] at h
    cases hidx : pyIndex l.length i with
    | none => rw [hidx] at h; cases h
    | some j =>
      rw [hidx] at h
      simp only [Option.map_some'] at h
      exact mem_listRemove (ih (listRemove j l) m h x hx)

/-- Appending one member whose address avoids the protected set keeps the
protected objects untouched and the member addresses clear of it. -/
theorem add_memberH_keep {A : List Addr} {s : Store} {h : HouseholdH} {c : Addr}
    (hmem : ∀ a ∈ h.members, a ∉ A) (hc : c ∉ A) :
    (∀ a ∈ A, readS (add_memberH s h c).1 a = readS s a) ∧
    (∀ a ∈ (add_memberH s h c).2.members, a ∉ A) := by
  constructor
  · intro a ha
    refine assignRolesH_frame ?_
    intro hin
    rcases List.mem_append.mp hin with h1 | h1
    · exact hmem a h1 ha
    · rw [List.mem_singleton] at h1
      subst h1
      exact hc ha
  · intro a ha
    rcases List.mem_append.mp ha with h1 | h1
    · exact hmem a h1
    · rw [List.mem_singleton] at h1
      subst h1
      exact hc

/-- The add_member fold of Marriage.apply preserves the protected set as
long as no appended address lies in it. -/
theorem foldl_add_memberH_keep (cs : List Addr) :
    ∀ (init : Store × HouseholdH) (A : List Addr),
    (∀ a ∈ init.2.members, a ∉ A) → (∀ c ∈ cs, c ∉ A) →
    (∀ a ∈ A,
      readS (cs.foldl (fun acc c => add_memberH acc.1 acc.2 c) init).1 a =
        readS init.1 a) ∧
    (∀ a ∈ (cs.foldl (fun acc c => add_memberH acc.1 acc.2 c) init).2.members,
      a ∉ A) := by
  induction cs with
  | nil =>
    intro init A hm hc
    exact ⟨fun a _ => rfl, hm⟩
  | cons c rest ih =>
    intro init A hm hc
    have step := @add_memberH_keep A init.1 init.2 c hm (hc c (List.mem_cons_self c rest))
    have next := ih (add_memberH init.1 init.2 c) A step.2
      (fun c2 hc2 => hc c2 (List.mem_cons_of_mem _ hc2))
    simp only [List.foldl_cons]
    exact ⟨fun a ha => (next.1 a ha).trans (step.1 a ha), next.2⟩

/-- Counterexample to claim C6: Marriage with a spouse_children parameter
aliasing the input household's only member returns a household whose
member addresses include that very object — the returned household DOES
share mutable state with the input. -/
theorem claim6_counterexample :
    (applyH (EventH.marriage 30 0 0 [0]) [{ age := 10 }]
        { state := "CA", members := [0], year := 2024 }).2 =
      some { state := "CA", members := [1, 2, 0], year := 2024 } ∧
    (0 : Addr) ∈ ({ state := "CA", members := [0], year := 2024 : HouseholdH }).members := by
  constructor
  · rfl
  · decide

/-- Claim C6 (amended): over the object store, for every event variant on
a well-formed household, provided the event's own Person parameters
(Marriage's spouse_children addresses) do not alias the input household's
members, apply never mutates any input member object, and the returned
household shares no member object with the input. -/
theorem claim6_apply_frame (e : EventH) (s : Store) (h : HouseholdH)
    (hwf : ∀ a ∈ h.members, a < s.length)
    (hdisj : ∀ a ∈ eventChildAddrs e, a ∉ h.members) :
    (∀ a ∈ h.members, readS (applyH e s h).1 a = readS s a) ∧
    (∀ h2, (applyH e s h).2 = some h2 → ∀ a ∈ h2.members, a ∉ h.members) := by
  obtain ⟨hcread, hclen, hcmem⟩ := copyH_facts s h
  cases hcopy : copyH s h with
  | mk s1 oh =>
  rw [hcopy] at hcread hclen hcmem
  cases oh with
  | none =>
    have hread1 : ∀ a ∈ h.members, readS s1 a = readS s a :=
      fun a ha => hcread a (hwf a ha)
    cases e <;> simp [applyH, hcopy] <;> exact hread1
  | some nh =>
    have hread1 : ∀ a ∈ h.members, readS s1 a = readS s a :=
      fun a ha => hcread a (hwf a ha)
    have hlen1 : s.length ≤ s1.length := hclen
    have hnh : ∀ a ∈ nh.members, s.length ≤ a := (hcmem nh rfl).1
    have hnotA : ∀ a ∈ nh.members, a ∉ h.members :=
      fun a ha hin => absurd (hwf a hin) (not_lt.mpr (hnh a ha))
    cases e with
    | losingESI who =>
      simp only [applyH, hcopy]
      exact ⟨hread1, fun h2 hh2 => by cases hh2; exact hnotA⟩
    | move st =>
      simp only [applyH, hcopy]
      exact ⟨hread1, fun h2 hh2 => by cases hh2; exact hnotA⟩
    | divorce cls =>
      simp only [applyH, hcopy]
      cases hpop : popAll nh.members
          (sortDescDedup
            ((match findSpouseIdxH s1 nh.members with
              | some i => [(i : Int)]
              | none => []) ++
              (if listTruthy cls then cls.getD [] else []))) with
      | none => simp only [hpop]; exact ⟨hread1, fun h2 hh2 => by cases hh2⟩
      | some ms =>
        simp only [hpop]
        refine ⟨hread1, fun h2 hh2 => ?_⟩
        cases hh2
        intro a ha
        exact hnotA a (popAll_subset _ _ _ hpop a ha)
    | jobChange idx ni ic =>
      simp only [applyH, hcopy, modifyMemberH]
      cases hget : pyGet nh.members idx with
      | none => exact ⟨hread1, fun h2 hh2 => by cases hh2⟩
      | some ma =>
        have hmaA : ma ∉ h.members := hnotA ma (pyGet_mem hget)
        refine ⟨?_, fun h2 hh2 => by cases hh2; exact hnotA⟩
        intro a ha
        rw [readS_writeS_ne _ (fun he => hmaA (by rw [← he]; exact ha))]
        exact hread1 a ha
    | unemployment idx uc sev =>
      simp only [applyH, hcopy, modifyMemberH]
      cases hget : pyGet nh.members idx with
      | none => exact ⟨hread1, fun h2 hh2 => by cases hh2⟩
      | some ma =>
        have hmaA : ma ∉ h.members := hnotA ma (pyGet_mem hget)
        refine ⟨?_, fun h2 hh2 => by cases hh2; exact hnotA⟩
        intro a ha
        rw [readS_writeS_ne _ (fun he => hmaA (by rw [← he]; exact ha))]
        exact hread1 a ha
    | retirement idx ssa keep pei =>
      simp only [applyH, hcopy, modifyMemberH]
      cases hget : pyGet nh.members idx with
      | none => exact ⟨hread1, fun h2 hh2 => by cases hh2⟩
      | some ma =>
        have hmaA : ma ∉ h.members := hnotA ma (pyGet_mem hget)
        refine ⟨?_, fun h2 hh2 => by cases hh2; exact hnotA⟩
        intro a ha
        rw [readS_writeS_ne _ (fun he => hmaA (by rw [← he]; exact ha))]
        exact hread1 a ha
    | pregnancy idx =>
      simp only [applyH, hcopy, modifyMemberH]
      cases hget : pyGet nh.members idx with
      | none => exact ⟨hread1, fun h2 hh2 => by cases hh2⟩
      | some ma =>
        have hmaA : ma ∉ h.members := hnotA ma (pyGet_mem hget)
        refine ⟨?_, fun h2 hh2 => by cases hh2; exact hnotA⟩
        intro a ha
        rw [readS_writeS_ne _ (fun he => hmaA (by rw [← he]; exact ha))]
        exact hread1 a ha
    | medicareTransition idx =>
      simp only [applyH, hcopy, modifyMemberH]
      cases hget : pyGet nh.members idx with
      | none => exact ⟨hread1, fun h2 hh2 => by cases hh2⟩
      | some ma =>
        have hmaA : ma ∉ h.members := hnotA ma (pyGet_mem hget)
        refine ⟨?_, fun h2 hh2 => by cases hh2; exact hnotA⟩
        intro a ha
        rw [readS_writeS_ne _ (fun he => hmaA (by rw [← he]; exact ha))]
        exact hread1 a ha
    | childAgingOut idx ty =>
      simp only [applyH, hcopy, modifyMemberH]
      cases hget : pyGet nh.members idx with
      | none => exact ⟨hread1, fun h2 hh2 => by cases hh2⟩
      | some ma =>
        have hmaA : ma ∉ h.members := hnotA ma (pyGet_mem hget)
        refine ⟨?_, fun h2 hh2 => by cases hh2; exact hnotA⟩
        intro a ha
        rw [readS_writeS_ne _ (fun he => hmaA (by rw [← he]; exact ha))]
        exact hread1 a ha
    | newChild age =>
      simp only [applyH, hcopy, allocS]
      have hkeep := @add_memberH_keep h.members (s1 ++ [{ age := age }]) nh s1.length
        hnotA (fun hin => absurd (hwf _ hin) (not_lt.mpr hlen1))
      refine ⟨?_, fun h2 hh2 => by cases hh2; exact hkeep.2⟩
      intro a ha
      rw [hkeep.1 a ha,
        readS_append _ (show a < s1.length from lt_of_lt_of_le (hwf a ha) hlen1)]
      exact hread1 a ha
    | marriage a2 ei ssei cs =>
      simp only [applyH, hcopy, allocS]
      have hkeep := @add_memberH_keep h.members
        (s1 ++ [{ age := a2, employment_income := ei, self_employment_income := ssei,
                  is_tax_unit_spouse := true }]) nh s1.length
        hnotA (fun hin => absurd (hwf _ hin) (not_lt.mpr hlen1))
      have hfold := foldl_add_memberH_keep cs
        (add_memberH
          (s1 ++ [{ age := a2, employment_income := ei, self_employment_income := ssei,
                    is_tax_unit_spouse := true }]) nh s1.length)
        h.members hkeep.2 (fun c hc => hdisj c hc)
      refine ⟨?_, fun h2 hh2 => by cases hh2; exact hfold.2⟩
      intro a ha
      rw [hfold.1 a ha, hkeep.1 a ha,
        readS_append _ (show a < s1.length from lt_of_lt_of_le (hwf a ha) hlen1)]
      exact hread1 a ha

/-- Witness for claim C6 (amended): on a concrete Pregnancy event, the
input household's member object is untouched by apply. -/
theorem claim6_witness :
    readS (applyH (EventH.pregnancy 0) s6w h6w).1 0 = readS s6w 0 :=
  (claim6_apply_frame (EventH.pregnancy 0) s6w h6w (by decide) (by decide)).1 0
    (by decide)

end Crossroads
